import Mathlib

/-!
# Activity signup client (`src/static/app.js`)

A shallow embedding of the browser script: the page state the script reads and
writes is an explicit record, every function of the script is a function on that
record, and the outcomes of `fetch`, `response.json()` and `confirm` are inputs.

Conventions of the model

* The values the script hands to `encodeURIComponent` (the two form values and the
  dataset of an unregister control) are JavaScript strings given by their UTF-16 code
  units, so they can hold a lone surrogate. The texts the script only copies (names,
  markup, messages) are Lean `String`s.
* The body of `GET /activities` is the list of members of the JSON object as
  received; `objectEntries` is the order in which `Object.entries` and `Object.keys`
  enumerate the parsed object.
* Response bodies have the shapes of the three endpoints, next to the unparseable
  body and the JSON value `null`; `max_participants` is a non-negative safe integer.
* `fetch` logs the request with the address the URL parser resolves the target to.
* Effects the claims speak about are logged in the page record: network requests,
  confirmation prompts, calls of `form.reset()` and pending timers.
-/

namespace ActivityClient

/-! ## Strings -/

/-- A JavaScript string value: its UTF-16 code units, each below 65536. -/
abbrev JsString := List Nat

/-- The code units of a code point. -/
def utf16Units (n : Nat) : List Nat :=
  if n < 0x10000 then [n]
  else [0xD800 + (n - 0x10000) / 0x400, 0xDC00 + (n - 0x10000) % 0x400]

/-- The JavaScript string of a text. -/
def utf16 (s : String) : JsString :=
  s.data.flatMap (fun c => utf16Units c.toNat)

/-- A leading surrogate. -/
def isLead (u : Nat) : Bool :=
  0xD800 ≤ u && u ≤ 0xDBFF

/-- A trailing surrogate. -/
def isTrail (u : Nat) : Bool :=
  0xDC00 ≤ u && u ≤ 0xDFFF

/-- The scan of `String.prototype.isWellFormed`; the flag tells that the unit before
was a leading surrogate. -/
def wellFormedFrom : Bool → List Nat → Bool
  | false, [] => true
  | true, [] => false
  | false, u :: rest =>
    if isLead u then wellFormedFrom true rest
    else if isTrail u then false
    else wellFormedFrom false rest
  | true, u :: rest => if isTrail u then wellFormedFrom false rest else false

/-- A string is well formed when it holds no lone surrogate. -/
def isWellFormed (v : JsString) : Bool :=
  wellFormedFrom false v

/-! ## Data model -/

/-- A Number holding a non-negative safe integer (below 2^53); such a Number is
printed as its decimal digits. -/
abbrev SafeInteger := Fin 9007199254740992

/-- One activity as the backend sends it (the value stored under its name). -/
structure Activity where
  description : String
  schedule : String
  max_participants : SafeInteger
  participants : List String
  deriving DecidableEq, Repr

/-- The body of `GET /activities`: the members of the JSON object, as received. -/
abbrev ActivityCollection := List (String × Activity)

/-- The array index a property key denotes, if it is one: a canonical decimal numeral
below 2^32 - 1. -/
def arrayIndex (key : String) : Option Nat :=
  if key.data ≠ [] ∧ key.data.all Char.isDigit = true ∧
      (key.data.head? ≠ some '0' ∨ key.data.length = 1) then
    if key.data.foldl (fun acc c => 10 * acc + (c.toNat - 48)) 0 < 4294967295 then
      some (key.data.foldl (fun acc c => 10 * acc + (c.toNat - 48)) 0)
    else none
  else none

/-- The keys in the order of their first occurrence. -/
def firstKeys : List String → List String
  | [] => []
  | k :: ks => k :: (firstKeys ks).filter (fun x => x ≠ k)

/-- The value of the last member with this key: a repeated member overwrites. -/
def lastValue {α : Type} (key : String) (members : List (String × α)) : Option α :=
  (members.reverse.find? (fun m => m.1 = key)).map Prod.snd

/-- The array-index keys, in ascending numeric order. -/
def indexKeys (keys : List String) : List String :=
  ((keys.filterMap (fun k => (arrayIndex k).map (fun i => (i, k)))).insertionSort
    (fun a b => a.1 ≤ b.1)).map Prod.snd

/-- The own property keys of the parsed object: array indices ascending, then the
other keys in the order they were created. -/
def ownKeys {α : Type} (members : List (String × α)) : List String :=
  indexKeys (firstKeys (members.map Prod.fst))
    ++ (firstKeys (members.map Prod.fst)).filter (fun k => (arrayIndex k).isNone)

/-- `Object.entries` of the object parsed from the members. -/
def objectEntries {α : Type} (members : List (String × α)) : List (String × α) :=
  (ownKeys members).filterMap (fun k => (lastValue k members).map (fun v => (k, v)))

/-- `Object.keys` of the object parsed from the members. -/
def objectKeys {α : Type} (members : List (String × α)) : List String :=
  (objectEntries members).map Prod.fst

/-- The parsed body of a signup or unregister reply: `result.message` and `error.detail`. -/
structure Reply where
  message : Option String
  detail : Option String
  deriving DecidableEq, Repr

/-- What `await response.json()` yields. -/
inductive JsonBody (β : Type) where
  | unparseable : JsonBody β
  | null : JsonBody β
  | value (v : β) : JsonBody β
  deriving DecidableEq, Repr

/-- What `await fetch(...)` yields: a rejection, or a response with its `ok` flag. -/
inductive FetchOutcome (β : Type) where
  | rejected : FetchOutcome β
  | response (ok : Bool) (body : JsonBody β) : FetchOutcome β
  deriving DecidableEq, Repr

inductive Method where
  | GET | POST | DELETE
  deriving DecidableEq, Repr

/-- The address of a request on the page's own origin, as the URL parser leaves it:
path segments, query and fragment. -/
structure Url where
  path : List String
  query : Option String
  fragment : Option String
  deriving DecidableEq, Repr

structure Request where
  method : Method
  url : Url
  deriving DecidableEq, Repr

/-- The errors a `try` block of the script can catch. -/
inductive JsError where
  | network
  | syntaxError
  | typeError
  | uriError
  deriving DecidableEq, Repr

/-! ## Page state -/

/-- A child element of `#activities-list`: its tag, class and the markup assigned to it. -/
structure Element where
  tag : String
  className : String
  innerHTML : String
  deriving DecidableEq, Repr

/-- An `option` child of `select#activity`. -/
structure OptionEl where
  value : String
  textContent : String
  deriving DecidableEq, Repr

/-- The banner `#message`. -/
structure Banner where
  textContent : String
  classList : List String
  deriving DecidableEq, Repr

structure Page where
  /-- children of `#activities-list` -/
  activitiesList : List Element
  /-- children of `select#activity` -/
  options : List OptionEl
  /-- the value of `#email` -/
  email : JsString
  /-- the value of `select#activity` -/
  activity : JsString
  /-- the values `form.reset()` restores -/
  emailDefault : JsString
  activityDefault : JsString
  message : Banner
  /-- due times (ms) of the pending `setTimeout` callbacks, in the order they were set -/
  timers : List Nat
  /-- current time (ms) -/
  now : Nat
  /-- network requests issued so far, oldest first -/
  requests : List Request
  /-- questions asked through `confirm`, oldest first -/
  prompts : List JsString
  /-- number of `form.reset()` calls so far -/
  formResets : Nat
  deriving DecidableEq, Repr

/-- The result of running a block that may throw: the page as the block left it
and the error thrown, if any. -/
structure Completion where
  page : Page
  thrown : Option JsError
  deriving DecidableEq, Repr

/-! ## Percent-encoding -/

/-- The characters `encodeURIComponent` leaves as they are: ASCII letters and digits
and `- _ . ! ~ * ' ( )`, by code. -/
def isUnescaped (n : Nat) : Bool :=
  (48 ≤ n && n ≤ 57) || (65 ≤ n && n ≤ 90) || (97 ≤ n && n ≤ 122) ||
    n == 45 || n == 95 || n == 46 || n == 33 || n == 126 || n == 42 || n == 39 ||
    n == 40 || n == 41

/-- UTF-8 octets of a code point. -/
def utf8Octets (n : Nat) : List Nat :=
  if n < 0x80 then [n]
  else if n < 0x800 then [0xC0 + n / 64, 0x80 + n % 64]
  else if n < 0x10000 then [0xE0 + n / 4096, 0x80 + n / 64 % 64, 0x80 + n % 64]
  else [0xF0 + n / 262144, 0x80 + n / 4096 % 64, 0x80 + n / 64 % 64, 0x80 + n % 64]

/-- Upper-case hexadecimal digit of a value below 16. -/
def hexDigit (d : Nat) : Char :=
  if d < 10 then Char.ofNat (48 + d) else Char.ofNat (55 + d)

/-- One octet as `%XX`. -/
def percentOctet (b : Nat) : List Char :=
  ['%', hexDigit (b / 16), hexDigit (b % 16)]

/-- The UTF-8 octets of a code point, each as `%XX`. -/
def percentCodePoint (n : Nat) : List Char :=
  (utf8Octets n).flatMap percentOctet

/-- The loop of `Encode` over the code units; the first argument is a leading surrogate
read just before, waiting for its trailing surrogate. `none` is the thrown `URIError`
of an unpaired surrogate. -/
def encodeFrom : Option Nat → List Nat → Option (List Char)
  | none, [] => some []
  | some _, [] => none
  | none, u :: rest =>
    if isUnescaped u then (encodeFrom none rest).map (fun r => Char.ofNat u :: r)
    else if isLead u then encodeFrom (some u) rest
    else if isTrail u then none
    else (encodeFrom none rest).map (fun r => percentCodePoint u ++ r)
  | some lead, u :: rest =>
    if isTrail u then
      (encodeFrom none rest).map (fun r =>
        percentCodePoint ((lead - 0xD800) * 0x400 + (u - 0xDC00) + 0x10000) ++ r)
    else none

/-- `encodeURIComponent`; `none` where it throws a `URIError`. -/
def encodeURIComponent (v : JsString) : Option String :=
  (encodeFrom none v).map String.mk

/-- Percent-encoding of a text, code point by code point, leaving the code points
`keep` accepts as they are. -/
def encodeWith (keep : Nat → Bool) (cs : List Char) : List Char :=
  cs.flatMap (fun c => if keep c.toNat then [c] else percentCodePoint c.toNat)

/-- What `encodeURIComponent` returns for a text. -/
def encodeText (s : String) : String :=
  String.mk (encodeWith isUnescaped s.data)

/-- The request target of the signup request (line 115); `none` where one of the two
`encodeURIComponent` calls throws. -/
def signupUrl (activity email : JsString) : Option String :=
  match encodeURIComponent activity, encodeURIComponent email with
  | some a, some e => some ("/activities/" ++ a ++ "/signup?email=" ++ e)
  | _, _ => none

/-- The request target of the unregister request (line 81); `none` where one of the two
`encodeURIComponent` calls throws. -/
def unregisterUrl (activity email : JsString) : Option String :=
  match encodeURIComponent activity, encodeURIComponent email with
  | some a, some e => some ("/activities/" ++ a ++ "/unregister?email=" ++ e)
  | _, _ => none

/-! ## The URL parser

`fetch` resolves its target against the address of the page. The model covers the
targets of the script, which begin with a single `/`: they keep scheme, host and port
of the page and get their path, query and fragment from the path, query and fragment
states of the URL parser for a special scheme.
-/

/-- Split a character sequence at every character satisfying `p`. -/
def splitWhere (p : Char → Bool) : List Char → List (List Char)
  | [] => [[]]
  | c :: cs =>
    if p c then [] :: splitWhere p cs
    else
      match splitWhere p cs with
      | [] => [[c]]
      | x :: xs => (c :: x) :: xs

/-- Split at the first occurrence of the character with code `sep`. -/
def splitFirst (sep : Nat) : List Char → List Char × Option (List Char)
  | [] => ([], none)
  | c :: cs =>
    if c.toNat = sep then ([], some cs)
    else ((c :: (splitFirst sep cs).1), (splitFirst sep cs).2)

/-- The C0 control percent-encode set. -/
def inC0ControlSet (n : Nat) : Bool :=
  n ≤ 0x1F || n > 0x7E

/-- The fragment percent-encode set. -/
def inFragmentSet (n : Nat) : Bool :=
  inC0ControlSet n || n == 0x20 || n == 0x22 || n == 0x3C || n == 0x3E || n == 0x60

/-- The query percent-encode set. -/
def inQuerySet (n : Nat) : Bool :=
  inC0ControlSet n || n == 0x20 || n == 0x22 || n == 0x23 || n == 0x3C || n == 0x3E

/-- The special-query percent-encode set. -/
def inSpecialQuerySet (n : Nat) : Bool :=
  inQuerySet n || n == 0x27

/-- The path percent-encode set. -/
def inPathSet (n : Nat) : Bool :=
  inQuerySet n || n == 0x3F || n == 0x5E || n == 0x60 || n == 0x7B || n == 0x7D

/-- UTF-8 percent-encoding of the code points in a percent-encode set. -/
def utf8PercentEncode (inSet : Nat → Bool) (cs : List Char) : List Char :=
  encodeWith (fun n => !inSet n) cs

/-- A single-dot path segment. -/
def isSingleDot (buffer : List Char) : Bool :=
  [".", "%2e", "%2E"].contains (String.mk buffer)

/-- A double-dot path segment. -/
def isDoubleDot (buffer : List Char) : Bool :=
  ["..", ".%2e", ".%2E", "%2e.", "%2E.", "%2e%2e", "%2e%2E", "%2E%2e", "%2E%2E"].contains
    (String.mk buffer)

/-- The path state: the path built so far, and the buffers between the slashes still
to come, the last of them ended by the end of the path. -/
def pathState : List String → List (List Char) → List String
  | path, [] => path
  | path, [buffer] =>
    if isDoubleDot (utf8PercentEncode inPathSet buffer) then path.dropLast ++ [""]
    else if isSingleDot (utf8PercentEncode inPathSet buffer) then path ++ [""]
    else path ++ [String.mk (utf8PercentEncode inPathSet buffer)]
  | path, buffer :: next :: rest =>
    if isDoubleDot (utf8PercentEncode inPathSet buffer) then
      pathState path.dropLast (next :: rest)
    else if isSingleDot (utf8PercentEncode inPathSet buffer) then
      pathState path (next :: rest)
    else pathState (path ++ [String.mk (utf8PercentEncode inPathSet buffer)]) (next :: rest)

/-- Leading and trailing C0 control or space removed, then every tab and newline. -/
def cleanInput (input : List Char) : List Char :=
  (((input.dropWhile (fun c => c.toNat ≤ 0x20)).reverse.dropWhile
    (fun c => c.toNat ≤ 0x20)).reverse).filter
      (fun c => !(c.toNat == 9 || c.toNat == 10 || c.toNat == 13))

/-- The characters of the path after its leading slash. -/
def afterSlash : List Char → List Char
  | [] => []
  | c :: rest => if c.toNat = 47 then rest else c :: rest

/-- The address a target beginning with a single `/` resolves to. -/
def resolve (target : String) : Url :=
  { path :=
      pathState []
        (splitWhere (fun c => c.toNat == 47 || c.toNat == 92)
          (afterSlash (splitFirst 63 (splitFirst 35 (cleanInput target.data)).1).1)),
    query :=
      (splitFirst 63 (splitFirst 35 (cleanInput target.data)).1).2.map
        (fun q => String.mk (utf8PercentEncode inSpecialQuerySet q)),
    fragment :=
      (splitFirst 35 (cleanInput target.data)).2.map
        (fun f => String.mk (utf8PercentEncode inFragmentSet f)) }

/-- The query parameters of an address: the pieces of the query between `&`, each split
at its first `=`. -/
def Url.queryParams (u : Url) : List (String × String) :=
  match u.query with
  | none => []
  | some query =>
    (splitWhere (fun c => c.toNat == 38) query.data).map
      (fun kv => (String.mk (splitFirst 61 kv).1, String.mk ((splitFirst 61 kv).2.getD [])))

/-- `fetch(target, {method})`: the request is issued to the address the target
resolves to. -/
def fetch (method : Method) (target : String) (p : Page) : Page :=
  { p with requests := p.requests ++ [⟨method, resolve target⟩] }

/-! ## Percent-decoding: `decodeURIComponent` -/

/-- The value of a hexadecimal digit. -/
def hexValue (c : Char) : Option Nat :=
  if 48 ≤ c.toNat ∧ c.toNat ≤ 57 then some (c.toNat - 48)
  else if 65 ≤ c.toNat ∧ c.toNat ≤ 70 then some (c.toNat - 55)
  else if 97 ≤ c.toNat ∧ c.toNat ≤ 102 then some (c.toNat - 87)
  else none

/-- First pass of `Decode`: every `%XX` becomes its octet, every other character stays. -/
def percentTokens : List Char → Option (List (Char ⊕ Nat))
  | [] => some []
  | c :: rest =>
    if c.toNat = 37 then
      match rest with
      | h :: l :: rest2 =>
        match hexValue h, hexValue l, percentTokens rest2 with
        | some hi, some lo, some tokens => some (.inr (16 * hi + lo) :: tokens)
        | _, _, _ => none
      | _ => none
    else
      match percentTokens rest with
      | some tokens => some (.inl c :: tokens)
      | none => none

/-- A UTF-8 continuation octet. -/
def isContinuation (b : Nat) : Bool :=
  0x80 ≤ b && b < 0xC0

/-- The character of a decoded code point, when it is one and is not below `least`
(an overlong encoding). -/
def codePoint (least n : Nat) : Option Char :=
  if least ≤ n ∧ n.isValidChar then some (Char.ofNat n) else none

/-- A UTF-8 sequence being read: the continuation octets still to come after the next
one, the bits read so far, and the least code point the sequence may encode. -/
structure Pending where
  more : Nat
  bits : Nat
  least : Nat
  deriving DecidableEq, Repr

/-- Second pass of `Decode`: runs of octets are read as UTF-8; an ill-formed run fails. -/
def decodeFrom : Option Pending → List (Char ⊕ Nat) → Option (List Char)
  | none, [] => some []
  | some _, [] => none
  | none, .inl c :: rest => (decodeFrom none rest).map (fun cs => c :: cs)
  | some _, .inl _ :: _ => none
  | none, .inr b :: rest =>
    if b < 0x80 then (decodeFrom none rest).map (fun cs => Char.ofNat b :: cs)
    else if b < 0xC0 then none
    else if b < 0xE0 then decodeFrom (some ⟨0, b - 0xC0, 0x80⟩) rest
    else if b < 0xF0 then decodeFrom (some ⟨1, b - 0xE0, 0x800⟩) rest
    else if b < 0xF8 then decodeFrom (some ⟨2, b - 0xF0, 0x10000⟩) rest
    else none
  | some s, .inr b :: rest =>
    if isContinuation b then
      match s.more with
      | 0 =>
        match codePoint s.least (s.bits * 64 + (b - 0x80)) with
        | some c => (decodeFrom none rest).map (fun cs => c :: cs)
        | none => none
      | k + 1 => decodeFrom (some ⟨k, s.bits * 64 + (b - 0x80), s.least⟩) rest
    else none

def decodeTokens (tokens : List (Char ⊕ Nat)) : Option (List Char) :=
  decodeFrom none tokens

/-- `decodeURIComponent`: `none` where it throws a `URIError`. -/
def decodeURIComponent (s : String) : Option String :=
  match percentTokens s.data with
  | some tokens => (decodeTokens tokens).map String.mk
  | none => none

/-- The tokens the encoding of a character reads back as. -/
def tokensOf (keep : Nat → Bool) (c : Char) : List (Char ⊕ Nat) :=
  if keep c.toNat then [.inl c] else (utf8Octets c.toNat).map .inr

/-- A delimiter of the request target: `/ ? # & =`. -/
def isDelimiter (c : Char) : Bool :=
  c.toNat == 47 || c.toNat == 63 || c.toNat == 35 || c.toNat == 38 || c.toNat == 61

/-- A character of an encoded text: one the encoder leaves as it is, or `%`. -/
def isPlain (c : Char) : Bool :=
  isUnescaped c.toNat || c.toNat == 37

/-- What `encodeURIComponent` keeps and the special-query percent-encode set lacks:
every kept character but the apostrophe. -/
def isUnescapedQuery (n : Nat) : Bool :=
  isUnescaped n && n != 39

/-- The target of the signup request for a name and an email that are texts. -/
def signupTarget (activity email : String) : String :=
  "/activities/" ++ encodeText activity ++ "/signup?email=" ++ encodeText email

/-- The target of the unregister request for a name and an email that are texts. -/
def unregisterTarget (activity email : String) : String :=
  "/activities/" ++ encodeText activity ++ "/unregister?email=" ++ encodeText email

/-- The path a target `/activities/NAME/verb` resolves to: a `.` segment is dropped and
a `..` segment removes the segment before it. -/
def resolvedPath (activity verb : String) : List String :=
  if activity = ".." then [verb]
  else if activity = "." then ["activities", verb]
  else ["activities", encodeText activity, verb]

/-- The email value in the query of the resolved address: the encoded email with its
apostrophes percent-encoded too. -/
def resolvedEmail (email : String) : String :=
  String.mk (encodeWith isUnescapedQuery email.data)

/-! ## Rendering: `displayActivities` -/

/-- The body of the `participants.map` callback (lines 31-36): one participant item. -/
def participantItem (name email : String) : String :=
  "\n                  <div class=\"participant-item\">\n                    <span class=\"participant-email\">"
    ++ email
    ++ "</span>\n                    <button class=\"delete-icon\" data-activity=\""
    ++ name ++ "\" data-email=\"" ++ email
    ++ "\" title=\"Unregister\">❌</button>\n                  </div>\n                "

/-- The `participantsList` markup (lines 29-38). -/
def participantsList (name : String) (details : Activity) : String :=
  if details.participants.length > 0 then
    "<div class=\"participants-list\">\n                "
      ++ String.join (details.participants.map (fun email => participantItem name email))
      ++ "\n               </div>"
  else
    "<p class=\"no-participants\">No participants yet</p>"

/-- The capacity as the template prints it: two Numbers with a slash between. -/
def capacityText (details : Activity) : String :=
  toString details.participants.length ++ "/" ++ toString details.max_participants.val

/-- The markup assigned to `card.innerHTML` (lines 40-49). -/
def cardHTML (name : String) (details : Activity) : String :=
  "\n            <h4>" ++ name
    ++ "</h4>\n            <p><strong>Description:</strong> " ++ details.description
    ++ "</p>\n            <p><strong>Schedule:</strong> " ++ details.schedule
    ++ "</p>\n            <p><strong>Capacity:</strong> "
    ++ capacityText details
    ++ "</p>\n            <div class=\"participants-section\">\n                <p><strong>Current Participants:</strong></p>\n                "
    ++ participantsList name details
    ++ "\n            </div>\n        "

/-- The `div.activity-card` built in one iteration of the loop (lines 26-49). -/
def card (entry : String × Activity) : Element :=
  { tag := "div", className := "activity-card", innerHTML := cardHTML entry.1 entry.2 }

/-- `displayActivities`: clear the container, then append one card per entry of
`Object.entries(activities)`. The listeners bound in lines 55-57 are represented by
`handleUnregister` taking the dataset of the control clicked. -/
def displayActivities (activities : ActivityCollection) (p : Page) : Page :=
  (objectEntries activities).foldl
    (fun q entry => { q with activitiesList := q.activitiesList ++ [card entry] })
    { p with activitiesList := [] }

/-! ## The selector: `populateActivityDropdown` -/

/-- `populateActivityDropdown`: append one option per key of `Object.keys(activities)`. -/
def populateActivityDropdown (activities : ActivityCollection) (p : Page) : Page :=
  (objectKeys activities).foldl
    (fun q name => { q with options := q.options ++ [⟨name, name⟩] }) p

/-! ## Loading: `loadActivities` -/

/-- The element `innerHTML` creates from the markup of lines 16-17. -/
def loadError : Element :=
  { tag := "p", className := "error",
    innerHTML := "Failed to load activities. Please try again later." }

/-- The `try` block of `loadActivities` (lines 9-13). -/
def loadActivitiesTry (get : FetchOutcome ActivityCollection) (p : Page) : Completion :=
  let p1 := fetch .GET "/activities" p
  match get with
  | .rejected => ⟨p1, some .network⟩
  | .response _ .unparseable => ⟨p1, some .syntaxError⟩
  | .response _ .null => ⟨{ p1 with activitiesList := [] }, some .typeError⟩
  | .response _ (.value activities) =>
    ⟨populateActivityDropdown activities (displayActivities activities p1), none⟩

/-- `loadActivities`: the `try` block, and on a throw the `catch` block (lines 15-17). -/
def loadActivities (get : FetchOutcome ActivityCollection) (p : Page) : Page :=
  match loadActivitiesTry get p with
  | ⟨q, none⟩ => q
  | ⟨q, some _⟩ => { q with activitiesList := [loadError] }

/-! ## The banner: `showMessage` -/

/-- The two values the script passes as `type`. -/
inductive Kind where
  | success | error
  deriving DecidableEq, Repr

def Kind.toString : Kind → String
  | .success => "success"
  | .error => "error"

/-- `classList.remove(token)`. -/
def classListRemove (token : String) (classList : List String) : List String :=
  classList.filter (fun t => t ≠ token)

/-- `classList.add(token)`. -/
def classListAdd (token : String) (classList : List String) : List String :=
  if token ∈ classList then classList else classList ++ [token]

/-- `showMessage`: set text and class, unhide, and schedule a hide 5000 ms from now. -/
def showMessage (text : String) (type : Kind) (p : Page) : Page :=
  { p with
    message :=
      { textContent := text,
        classList := classListRemove "hidden" ["message", type.toString] },
    timers := p.timers ++ [p.now + 5000] }

/-- The `setTimeout` callback of `showMessage` (line 143). -/
def hideMessage (p : Page) : Page :=
  { p with message := { p.message with classList := classListAdd "hidden" p.message.classList } }

/-- The event loop up to time `t`: every timer due by `t` runs, in the order set. -/
def advanceTo (t : Nat) (p : Page) : Page :=
  let ran := (p.timers.filter (fun due => due ≤ t)).foldl (fun q _ => hideMessage q) p
  { ran with timers := p.timers.filter (fun due => ¬ due ≤ t), now := t }

/-- The banner is visible when its class list lacks `hidden`. -/
def Banner.visible (b : Banner) : Bool :=
  !b.classList.contains "hidden"

/-! ## Unregister: `handleUnregister` -/

/-- The question of line 76. -/
def confirmQuestion (email activity : JsString) : JsString :=
  utf16 "Are you sure you want to unregister " ++ email ++ utf16 " from " ++ activity
    ++ utf16 "?"

/-- What assigning `value` to `textContent` shows: `undefined` becomes the empty string. -/
def textOf (value : Option String) : String :=
  value.getD ""

/-- The `try` block of `handleUnregister` (lines 81-93): the target is computed, and
only then `fetch` is called. -/
def handleUnregisterTry (del : FetchOutcome Reply) (get : FetchOutcome ActivityCollection)
    (activity email : JsString) (p : Page) : Completion :=
  match unregisterUrl activity email with
  | none => ⟨p, some .uriError⟩
  | some target =>
    match del with
    | .rejected => ⟨fetch .DELETE target p, some .network⟩
    | .response ok body =>
      if ok then
        match body with
        | .unparseable => ⟨fetch .DELETE target p, some .syntaxError⟩
        | .null => ⟨fetch .DELETE target p, some .typeError⟩
        | .value result =>
          ⟨loadActivities get
            (showMessage (textOf result.message) .success (fetch .DELETE target p)), none⟩
      else
        match body with
        | .unparseable => ⟨fetch .DELETE target p, some .syntaxError⟩
        | .null => ⟨fetch .DELETE target p, some .typeError⟩
        | .value error =>
          ⟨showMessage (textOf error.detail) .error (fetch .DELETE target p), none⟩

/-- `handleUnregister` for a click on the control whose dataset is `(activity, email)`;
`confirmed` is the answer to the prompt. -/
def handleUnregister (confirmed : Bool) (del : FetchOutcome Reply)
    (get : FetchOutcome ActivityCollection) (activity email : JsString) (p : Page) :
    Completion :=
  if !confirmed then
    ⟨{ p with prompts := p.prompts ++ [confirmQuestion email activity] }, none⟩
  else
    match handleUnregisterTry del get activity email
        { p with prompts := p.prompts ++ [confirmQuestion email activity] } with
    | ⟨q, none⟩ => ⟨q, none⟩
    | ⟨q, some _⟩ => ⟨showMessage "Failed to unregister. Please try again." .error q, none⟩

/-! ## Signup: the submit listener of `setupSignupForm` -/

/-- The call `form.reset()`. -/
def formReset (p : Page) : Page :=
  { p with email := p.emailDefault, activity := p.activityDefault,
           formResets := p.formResets + 1 }

/-- The `try` block of the submit listener (lines 115-128): the target is computed, and
only then `fetch` is called. -/
def submitTry (post : FetchOutcome Reply) (get : FetchOutcome ActivityCollection)
    (email activity : JsString) (p : Page) : Completion :=
  match signupUrl activity email with
  | none => ⟨p, some .uriError⟩
  | some target =>
    match post with
    | .rejected => ⟨fetch .POST target p, some .network⟩
    | .response ok body =>
      if ok then
        match body with
        | .unparseable => ⟨fetch .POST target p, some .syntaxError⟩
        | .null => ⟨fetch .POST target p, some .typeError⟩
        | .value result =>
          ⟨loadActivities get
            (formReset (showMessage (textOf result.message) .success (fetch .POST target p))),
            none⟩
      else
        match body with
        | .unparseable => ⟨fetch .POST target p, some .syntaxError⟩
        | .null => ⟨fetch .POST target p, some .typeError⟩
        | .value error =>
          ⟨showMessage (textOf error.detail) .error (fetch .POST target p), none⟩

/-- The submit listener registered by `setupSignupForm` (lines 103-133). -/
def setupSignupForm_submit (post : FetchOutcome Reply) (get : FetchOutcome ActivityCollection)
    (p : Page) : Completion :=
  if p.email = [] ∨ p.activity = [] then
    ⟨showMessage "Please fill in all fields" .error p, none⟩
  else
    match submitTry post get p.email p.activity p with
    | ⟨q, none⟩ => ⟨q, none⟩
    | ⟨q, some _⟩ => ⟨showMessage "Failed to sign up. Please try again." .error q, none⟩

/-! ## The markup as the browser reads it

`card.innerHTML = ...` hands the markup to the HTML parser. The tokenizer below
follows the data state and the tag and attribute states of the HTML standard (tag
open, end tag open, tag name, the attribute name and value states, self-closing start
tag) and returns the start tags with their attributes and the character tokens.
Character references are left undecoded, `<!...>` and `<?...>` are skipped up to the
next `>`, and the content models of `script`, `style`, `textarea` and `title` are not
tracked.
-/

/-- A start tag token: lower-cased name, attributes in source order (first of a
duplicated name kept). -/
structure StartTag where
  name : String
  attrs : List (String × String)
  deriving DecidableEq, Repr

inductive TokState where
  | data | tagOpen | endTagOpen | tagName | beforeAttrName | attrName | afterAttrName
  | beforeAttrValue | attrValueDQ | attrValueSQ | attrValueUnq | afterAttrValueQ
  | selfClosing | bogus
  deriving DecidableEq, Repr

/-- Tokenizer state: the tag token under construction (its attributes newest
first), the character tokens and the start tags emitted so far. -/
structure Tokenizer where
  state : TokState
  isEnd : Bool
  name : List Char
  attrs : List (List Char × List Char)
  text : List Char
  out : List StartTag
  deriving DecidableEq, Repr

/-- ASCII whitespace of the tokenizer: tab, line feed, form feed, space. -/
def isHtmlSpace (c : Char) : Bool :=
  c.toNat == 9 || c.toNat == 10 || c.toNat == 12 || c.toNat == 32

/-- Keep the first attribute of every name. -/
def dedupAttrs : List (String × String) → List (String × String)
  | [] => []
  | a :: rest => a :: (dedupAttrs rest).filter (fun b => b.1 ≠ a.1)

def Tokenizer.init : Tokenizer :=
  { state := .data, isEnd := false, name := [], attrs := [], text := [], out := [] }

/-- Back in the data state, no tag token under construction. -/
def Tokenizer.toData (t : Tokenizer) : Tokenizer :=
  { state := .data, isEnd := false, name := [], attrs := [], text := t.text, out := t.out }

/-- Emit a character token. -/
def Tokenizer.char (t : Tokenizer) (c : Char) : Tokenizer :=
  { t with text := t.text ++ [c] }

/-- Emit the current tag token and return to the data state. -/
def Tokenizer.emit (t : Tokenizer) : Tokenizer :=
  { state := .data, isEnd := false, name := [], attrs := [], text := t.text,
    out :=
      if t.isEnd then t.out
      else
        t.out ++ [⟨String.mk t.name,
          dedupAttrs (t.attrs.reverse.map (fun a => (String.mk a.1, String.mk a.2)))⟩] }

/-- Start a new attribute whose name begins with `c`, and go to the attribute name state. -/
def Tokenizer.newAttr (t : Tokenizer) (c : Char) : Tokenizer :=
  { t with state := .attrName, attrs := ([c.toLower], []) :: t.attrs }

def Tokenizer.pushName (t : Tokenizer) (c : Char) : Tokenizer :=
  match t.attrs with
  | [] => t
  | (n, v) :: rest => { t with attrs := (n ++ [c.toLower], v) :: rest }

def Tokenizer.pushValue (t : Tokenizer) (c : Char) : Tokenizer :=
  match t.attrs with
  | [] => t
  | (n, v) :: rest => { t with attrs := (n, v ++ [c]) :: rest }

/-- The after attribute name state, also entered by reconsuming `/` and `>`. -/
def Tokenizer.afterName (t : Tokenizer) (c : Char) : Tokenizer :=
  if isHtmlSpace c then { t with state := .afterAttrName }
  else if c = '/' then { t with state := .selfClosing }
  else if c = '=' then { t with state := .beforeAttrValue }
  else if c = '>' then t.emit
  else t.newAttr c

/-- The before attribute name state, also entered by reconsuming. -/
def Tokenizer.beforeName (t : Tokenizer) (c : Char) : Tokenizer :=
  if isHtmlSpace c then { t with state := .beforeAttrName }
  else if c = '/' || c = '>' then t.afterName c
  else t.newAttr c

/-- One character of input. -/
def Tokenizer.step (t : Tokenizer) (c : Char) : Tokenizer :=
  match t.state with
  | .data => if c = '<' then { t with state := .tagOpen } else t.char c
  | .tagOpen =>
    if c = '!' || c = '?' then { t with state := .bogus }
    else if c = '/' then { t with state := .endTagOpen }
    else if c.isAlpha then
      { t with state := .tagName, isEnd := false, name := [c.toLower], attrs := [] }
    else if c = '<' then { t.char '<' with state := .tagOpen }
    else ((t.char '<').char c).toData
  | .endTagOpen =>
    if c.isAlpha then
      { t with state := .tagName, isEnd := true, name := [c.toLower], attrs := [] }
    else if c = '>' then t.toData
    else { t with state := .bogus }
  | .bogus => if c = '>' then t.toData else t
  | .tagName =>
    if isHtmlSpace c then { t with state := .beforeAttrName }
    else if c = '/' then { t with state := .selfClosing }
    else if c = '>' then t.emit
    else { t with name := t.name ++ [c.toLower] }
  | .beforeAttrName => t.beforeName c
  | .attrName =>
    if isHtmlSpace c || c = '/' || c = '>' then t.afterName c
    else if c = '=' then { t with state := .beforeAttrValue }
    else t.pushName c
  | .afterAttrName => t.afterName c
  | .beforeAttrValue =>
    if isHtmlSpace c then t
    else if c = '"' then { t with state := .attrValueDQ }
    else if c.toNat = 39 then { t with state := .attrValueSQ }
    else if c = '>' then t.emit
    else { t.pushValue c with state := .attrValueUnq }
  | .attrValueDQ =>
    if c = '"' then { t with state := .afterAttrValueQ } else t.pushValue c
  | .attrValueSQ =>
    if c.toNat = 39 then { t with state := .afterAttrValueQ } else t.pushValue c
  | .attrValueUnq =>
    if isHtmlSpace c then { t with state := .beforeAttrName }
    else if c = '>' then t.emit
    else t.pushValue c
  | .afterAttrValueQ =>
    if isHtmlSpace c then { t with state := .beforeAttrName }
    else if c = '/' then { t with state := .selfClosing }
    else if c = '>' then t.emit
    else t.beforeName c
  | .selfClosing => if c = '>' then t.emit else t.beforeName c

/-- The tokenizer run over a piece of input. -/
def Tokenizer.run (t : Tokenizer) (input : List Char) : Tokenizer :=
  input.foldl Tokenizer.step t

/-- The data state with the given character tokens and start tags emitted. -/
def Tokenizer.dataWith (text : List Char) (out : List StartTag) : Tokenizer :=
  { Tokenizer.init with text := text, out := out }

/-- The same tokenizer state, reached after `text` and `out` had been emitted before. -/
def Tokenizer.after (t : Tokenizer) (text : List Char) (out : List StartTag) : Tokenizer :=
  { t with text := text ++ t.text, out := out ++ t.out }

/-- The start tags of a piece of markup, in order. -/
def startTags (html : String) : List StartTag :=
  (Tokenizer.init.run html.data).out

/-- The text of a piece of markup: its character tokens, in order. -/
def visibleText (html : String) : String :=
  String.mk (Tokenizer.init.run html.data).text

/-- The value of an attribute of a start tag, as `getAttribute` and `dataset` read it. -/
def StartTag.attr (t : StartTag) (name : String) : Option String :=
  (t.attrs.find? (fun a => a.1 = name)).map Prod.snd

/-- A start tag matches `.delete-icon` when its class attribute has that token. -/
def StartTag.isDeleteIcon (t : StartTag) : Bool :=
  match t.attr "class" with
  | none => false
  | some cls => (splitWhere isHtmlSpace cls.data).contains "delete-icon".data

/-- The dataset of an unregister control: `button.dataset.activity`, `button.dataset.email`. -/
structure Control where
  activity : Option String
  email : Option String
  deriving DecidableEq, Repr

/-- The unregister controls of a piece of markup: what `querySelectorAll('.delete-icon')`
finds in it, each with its dataset. -/
def unregisterControls (html : String) : List Control :=
  ((startTags html).filter StartTag.isDeleteIcon).map
    (fun t => ⟨t.attr "data-activity", t.attr "data-email"⟩)

/-- A response is 2xx when `response.ok` holds. -/
def FetchOutcome.is2xx {β : Type} : FetchOutcome β → Bool
  | .response true _ => true
  | _ => false

/-- A 2xx response whose body parses to a JSON value other than `null`. -/
def FetchOutcome.succeeded {β : Type} : FetchOutcome β → Bool
  | .response true (.value _) => true
  | _ => false

/-! ## Concrete inputs -/

/-- A freshly loaded host page: empty list, empty selector, empty form, hidden banner. -/
def page0 : Page :=
  { activitiesList := [], options := [], email := [], activity := [],
    emailDefault := [], activityDefault := [],
    message := { textContent := "", classList := ["hidden"] },
    timers := [], now := 0, requests := [], prompts := [], formResets := 0 }

def chess : Activity :=
  { description := "Learn strategies and compete in chess tournaments",
    schedule := "Fridays, 3:30 PM - 5:00 PM",
    max_participants := 12,
    participants := ["a@x.com", "b@x.com"] }

def quoted : Activity :=
  { description := "Learn strategies and compete in chess tournaments",
    schedule := "Fridays, 3:30 PM - 5:00 PM",
    max_participants := 12,
    participants := ["a\"b@x.com"] }

/-- The page with the signup form filled in. -/
def filled : Page :=
  { page0 with email := utf16 "a@x.com", activity := utf16 "Chess Club",
               options := [⟨"", "-- Select an activity --"⟩, ⟨"Chess Club", "Chess Club"⟩] }

/-! ## Closed forms of the two loops -/

theorem displayActivities_loop (entries : List (String × Activity)) (p : Page) :
    entries.foldl
        (fun q entry => { q with activitiesList := q.activitiesList ++ [card entry] }) p
      = { p with activitiesList := p.activitiesList ++ entries.map card } := by
  induction entries generalizing p with
  | nil => simp
  | cons e es ih => simp [ih]

theorem displayActivities_eq (activities : ActivityCollection) (p : Page) :
    displayActivities activities p
      = { p with activitiesList := (objectEntries activities).map card } := by
  simp [displayActivities, displayActivities_loop]

theorem populate_loop (names : List String) (p : Page) :
    names.foldl (fun q name => { q with options := q.options ++ [⟨name, name⟩] }) p
      = { p with options := p.options ++ names.map (fun n => ⟨n, n⟩) } := by
  induction names generalizing p with
  | nil => simp
  | cons n ns ih => simp [ih]

theorem populateActivityDropdown_eq (activities : ActivityCollection) (p : Page) :
    populateActivityDropdown activities p
      = { p with options := p.options ++ (objectKeys activities).map (fun n => ⟨n, n⟩) } := by
  simp [populateActivityDropdown, populate_loop]

/-- On a response whose body parses to a collection, `loadActivities` renders it and
appends its keys to the selector, whatever the status. -/
theorem loadActivities_value (ok : Bool) (activities : ActivityCollection) (p : Page) :
    loadActivities (.response ok (.value activities)) p
      = { p with
          activitiesList := (objectEntries activities).map card,
          options := p.options ++ (objectKeys activities).map (fun n => ⟨n, n⟩),
          requests := p.requests ++ [⟨.GET, resolve "/activities"⟩] } := by
  simp [loadActivities, loadActivitiesTry, populateActivityDropdown_eq, displayActivities_eq,
    fetch]

/-- `loadActivities` issues exactly the one `GET /activities`. -/
theorem loadActivities_requests (get : FetchOutcome ActivityCollection) (p : Page) :
    (loadActivities get p).requests = p.requests ++ [⟨.GET, resolve "/activities"⟩] := by
  rcases get with _ | ⟨ok, _ | _ | v⟩ <;>
    simp [loadActivities, loadActivitiesTry, populateActivityDropdown_eq,
      displayActivities_eq, fetch]

/-- The target `/activities` resolves to the one-segment path `activities`. -/
theorem resolve_activities :
    resolve "/activities" = { path := ["activities"], query := none, fragment := none } := by
  decide!

/-- The fields `loadActivities` leaves alone. -/
theorem loadActivities_frame (get : FetchOutcome ActivityCollection) (p : Page) :
    (loadActivities get p).message = p.message ∧
    (loadActivities get p).email = p.email ∧
    (loadActivities get p).activity = p.activity ∧
    (loadActivities get p).formResets = p.formResets ∧
    (loadActivities get p).timers = p.timers ∧
    (loadActivities get p).prompts = p.prompts := by
  rcases get with _ | ⟨ok, _ | _ | v⟩ <;>
    simp [loadActivities, loadActivitiesTry, populateActivityDropdown_eq,
      displayActivities_eq, fetch]

/-! ## C1: the selector -/

/-- C1, on the code: called twice with the same one-activity collection on the empty
selector, `populateActivityDropdown` leaves two options for the one activity, where
the claim says one. -/
theorem populateActivityDropdown_twice :
    (populateActivityDropdown [("Chess Club", chess)]
        (populateActivityDropdown [("Chess Club", chess)] page0)).options
      = [⟨"Chess Club", "Chess Club"⟩, ⟨"Chess Club", "Chess Club"⟩] := by
  decide!

/-! ## C2: failures of the load -/

/-- C2, on the code: a non-2xx response to `GET /activities` whose body is the empty
object leaves the list container empty, without the error message, and a non-2xx
response whose body is a collection is rendered and added to the selector. -/
theorem loadActivities_non2xx :
    (loadActivities (.response false (.value [])) page0).activitiesList = [] ∧
    (loadActivities (.response false (.value [("Chess Club", chess)])) page0).activitiesList
      = [card ("Chess Club", chess)] ∧
    (loadActivities (.response false (.value [("Chess Club", chess)])) page0).options
      = [⟨"Chess Club", "Chess Club"⟩] := by
  decide!

/-- On a rejected request, an unparseable body or a `null` body, `loadActivities` shows
the error message in place of the list and leaves the selector as it was. -/
theorem loadActivities_failure (ok : Bool) (p : Page) :
    (∀ get, get = FetchOutcome.rejected ∨ get = .response ok .unparseable ∨
        get = .response ok .null →
      (loadActivities get p).activitiesList = [loadError] ∧
      (loadActivities get p).options = p.options) := by
  intro get h
  rcases h with h | h | h <;> subst h <;> simp [loadActivities, loadActivitiesTry, fetch]

/-! ## C4: the unregister controls -/

/-- The two-participant example of the specification: two controls, each with its own
activity name and email. -/
theorem unregisterControls_two :
    unregisterControls (cardHTML "Chess Club" chess)
      = [⟨some "Chess Club", some "a@x.com"⟩, ⟨some "Chess Club", some "b@x.com"⟩] := by
  decide!

/-- C4, on the code: for the participant `a"b@x.com` the card's unregister control carries
`data-email` equal to `a`, not the participant's email: the markup is built by
interpolation and the attribute value ends at the first double quote. -/
theorem unregisterControls_quote :
    unregisterControls (cardHTML "Chess Club" quoted) = [⟨some "Chess Club", some "a"⟩] ∧
    quoted.participants = ["a\"b@x.com"] := by
  decide!

/-! ## C9: the hide timers of `showMessage` -/

/-- C9, as stated, fails: messages shown at 0 ms and at 1000 ms; at 5000 ms, within five
seconds of the second call, the first call's timer has hidden the banner. -/
theorem showMessage_first_timer_hides :
    (advanceTo 5000 (showMessage "second" .error
        (advanceTo 1000 (showMessage "first" .success page0)))).message.visible = false ∧
    (advanceTo 4999 (showMessage "second" .error
        (advanceTo 1000 (showMessage "first" .success page0)))).message.visible = true := by
  decide!

/-- C9, amended: a call of `showMessage` schedules its own hide 5000 ms later and
cancels no earlier timer. For a call at `t1` (no timer pending) and a second call at
`t2` with `t1 < t2 < t1 + 5000`, at every time `t` from `t2` on the banner carries the
second text and kind, and it is visible exactly while `t < t1 + 5000`: the first
call's timer hides it. -/
theorem showMessage_twice (text1 text2 : String) (kind1 kind2 : Kind) (p : Page)
    (t2 t : Nat) (hp : p.timers = []) (h1 : p.now < t2) (h2 : t2 < p.now + 5000)
    (_ht : t2 ≤ t) :
    (advanceTo t (showMessage text2 kind2
        (advanceTo t2 (showMessage text1 kind1 p)))).message.textContent = text2 ∧
    (advanceTo t (showMessage text2 kind2
        (advanceTo t2 (showMessage text1 kind1 p)))).message.classList
      = (if t < p.now + 5000 then ["message", kind2.toString]
          else ["message", kind2.toString, "hidden"]) ∧
    ((advanceTo t (showMessage text2 kind2
        (advanceTo t2 (showMessage text1 kind1 p)))).message.visible = true
      ↔ t < p.now + 5000) := by
  have e1 : ¬ p.now + 5000 ≤ t2 := by omega
  by_cases c1 : t < p.now + 5000
  · have e2 : ¬ p.now + 5000 ≤ t := by omega
    have e3 : ¬ t2 + 5000 ≤ t := by omega
    cases kind2 <;>
      simp [advanceTo, showMessage, hideMessage, hp, h2, e1, e2, e3, c1, Banner.visible,
        classListRemove, Kind.toString, List.filter_cons]
  · have e2 : p.now + 5000 ≤ t := by omega
    by_cases c2 : t2 + 5000 ≤ t <;> cases kind2 <;>
      simp [advanceTo, showMessage, hideMessage, hp, h2, e1, e2, c1, c2, Banner.visible,
        classListRemove, classListAdd, Kind.toString, List.filter_cons]

/-- C9, amended, for calls at 0 ms and 1000 ms, read at 3000 ms. -/
theorem showMessage_twice_witness :
    (advanceTo 3000 (showMessage "second" .error
        (advanceTo 1000 (showMessage "first" .success page0)))).message.textContent
      = "second" :=
  (showMessage_twice "first" "second" .success .error page0 1000 3000 rfl (by decide)
    (by decide) (by decide)).1

/-! ## The order of `Object.entries` -/

theorem firstKeys_mem (ks : List String) (k : String) : k ∈ firstKeys ks ↔ k ∈ ks := by
  induction ks with
  | nil => simp [firstKeys]
  | cons x xs ih =>
    simp only [firstKeys, List.mem_cons, List.mem_filter, ih, decide_eq_true_eq]
    by_cases h : k = x <;> simp [h]

theorem firstKeys_nodup (ks : List String) (h : ks.Nodup) : firstKeys ks = ks := by
  induction ks with
  | nil => rfl
  | cons x xs ih =>
    have hx : x ∉ xs := (List.nodup_cons.1 h).1
    rw [firstKeys, ih (List.nodup_cons.1 h).2, List.filter_eq_self.2]
    intro a ha
    have : a ≠ x := fun e => hx (e ▸ ha)
    simp [this]

theorem lastValue_mem {α : Type} (members : List (String × α)) (k : String)
    (h : k ∈ members.map Prod.fst) : ∃ v, lastValue k members = some v := by
  obtain ⟨m, hm, hk⟩ := List.mem_map.1 h
  unfold lastValue
  cases hf : members.reverse.find? (fun m => decide (m.1 = k)) with
  | none =>
    have := List.find?_eq_none.1 hf m (List.mem_reverse.2 hm)
    simp [hk] at this
  | some x => exact ⟨x.2, rfl⟩

theorem lastValue_nodup {α : Type} (members : List (String × α))
    (h : (members.map Prod.fst).Nodup) (m : String × α) (hm : m ∈ members) :
    lastValue m.1 members = some m.2 := by
  unfold lastValue
  cases hf : members.reverse.find? (fun x => decide (x.1 = m.1)) with
  | none =>
    have := List.find?_eq_none.1 hf m (List.mem_reverse.2 hm)
    simp at this
  | some x =>
    have hx1 : x.1 = m.1 := by simpa using List.find?_some hf
    have hx2 : x ∈ members := List.mem_reverse.1 (List.mem_of_find?_eq_some hf)
    have hinj := List.inj_on_of_nodup_map h hx2 hm hx1
    simp [hinj]

/-- The pairs of index and key the array-index keys are sorted through. -/
theorem indexPairs_spec (K : List String) :
    ∀ pr ∈ K.filterMap (fun k => (arrayIndex k).map (fun i => (i, k))),
      arrayIndex pr.2 = some pr.1 ∧ pr.2 ∈ K := by
  intro pr hpr
  obtain ⟨k, hk, hpk⟩ := List.mem_filterMap.1 hpr
  cases hi : arrayIndex k with
  | none => simp [hi] at hpk
  | some i =>
    simp only [hi, Option.map_some', Option.some.injEq] at hpk
    subst hpk
    exact ⟨hi, hk⟩

theorem indexPairs_snd (K : List String) :
    (K.filterMap (fun k => (arrayIndex k).map (fun i => (i, k)))).map Prod.snd
      = K.filter (fun k => (arrayIndex k).isSome) := by
  induction K with
  | nil => rfl
  | cons k ks ih =>
    cases hi : arrayIndex k with
    | none => simp [List.filterMap_cons, List.filter_cons, hi, ih]
    | some i => simp [List.filterMap_cons, List.filter_cons, hi, ih]

theorem filterMap_index_snd (l : List (Nat × String))
    (h : ∀ pr ∈ l, arrayIndex pr.2 = some pr.1) :
    (l.map Prod.snd).filterMap arrayIndex = l.map Prod.fst := by
  induction l with
  | nil => rfl
  | cons pr l ih =>
    have h1 := h pr (by simp)
    have ih2 := ih (fun x hx => h x (by simp [hx]))
    simp [List.filterMap_cons, h1, ih2]

/-- The array-index keys come out as the array-index keys of the input, rearranged. -/
theorem indexKeys_perm (K : List String) :
    (indexKeys K).Perm (K.filter (fun k => (arrayIndex k).isSome)) := by
  unfold indexKeys
  rw [← indexPairs_snd]
  exact (List.perm_insertionSort _ _).map _

/-- The array-index keys come out in ascending numeric order. -/
theorem indexKeys_sorted (K : List String) :
    ((indexKeys K).filterMap arrayIndex).Sorted (fun a b => a ≤ b) := by
  unfold indexKeys
  have hspec : ∀ pr ∈ (K.filterMap (fun k => (arrayIndex k).map (fun i => (i, k)))).insertionSort
      (fun a b => a.1 ≤ b.1), arrayIndex pr.2 = some pr.1 :=
    fun pr hpr => (indexPairs_spec K pr ((List.mem_insertionSort _).1 hpr)).1
  rw [filterMap_index_snd _ hspec]
  haveI : IsTotal (Nat × String) (fun a b => a.1 ≤ b.1) := ⟨fun a b => Nat.le_total a.1 b.1⟩
  haveI : IsTrans (Nat × String) (fun a b => a.1 ≤ b.1) :=
    ⟨fun _ _ _ h1 h2 => Nat.le_trans h1 h2⟩
  have hs := List.sorted_insertionSort (fun a b : Nat × String => a.1 ≤ b.1)
    (K.filterMap (fun k => (arrayIndex k).map (fun i => (i, k))))
  exact List.pairwise_map.2 hs

theorem indexKeys_mem (K : List String) (k : String) (h : k ∈ indexKeys K) : k ∈ K := by
  have := (indexKeys_perm K).subset h
  exact (List.mem_filter.1 this).1

theorem indexKeys_none (K : List String) (h : ∀ k ∈ K, arrayIndex k = none) :
    indexKeys K = [] := by
  have hp := indexKeys_perm K
  have hf : K.filter (fun k => (arrayIndex k).isSome) = [] := by
    rw [List.filter_eq_nil_iff]
    intro k hk
    simp [h k hk]
  rw [hf] at hp
  exact List.Perm.eq_nil hp

theorem ownKeys_mem {α : Type} (members : List (String × α)) (k : String)
    (h : k ∈ ownKeys members) : k ∈ members.map Prod.fst := by
  unfold ownKeys at h
  rcases List.mem_append.1 h with h | h
  · exact (firstKeys_mem _ _).1 (indexKeys_mem _ _ h)
  · exact (firstKeys_mem _ _).1 (List.mem_filter.1 h).1

theorem filterMap_lookup_fst {α : Type} (members : List (String × α)) (keys : List String)
    (h : ∀ k ∈ keys, k ∈ members.map Prod.fst) :
    (keys.filterMap (fun k => (lastValue k members).map (fun v => (k, v)))).map Prod.fst
      = keys := by
  induction keys with
  | nil => rfl
  | cons k ks ih =>
    obtain ⟨v, hv⟩ := lastValue_mem members k (h k (by simp))
    have ih2 := ih (fun x hx => h x (by simp [hx]))
    simp [List.filterMap_cons, hv, ih2]

/-- The keys of the parsed object: the array indices, then the other keys in the order
of their first occurrence. -/
theorem objectKeys_eq {α : Type} (members : List (String × α)) :
    objectKeys members
      = indexKeys (firstKeys (members.map Prod.fst))
        ++ (firstKeys (members.map Prod.fst)).filter (fun k => (arrayIndex k).isNone) := by
  unfold objectKeys objectEntries
  rw [filterMap_lookup_fst members _ (ownKeys_mem members)]
  rfl

theorem objectEntries_value {α : Type} (members : List (String × α)) :
    ∀ e ∈ objectEntries members, lastValue e.1 members = some e.2 := by
  intro e he
  obtain ⟨k, _, hk⟩ := List.mem_filterMap.1 he
  cases hv : lastValue k members with
  | none => simp [hv] at hk
  | some v =>
    simp only [hv, Option.map_some', Option.some.injEq] at hk
    subst hk
    exact hv

theorem objectEntries_length {α : Type} (members : List (String × α)) :
    (objectEntries members).length = (firstKeys (members.map Prod.fst)).length := by
  have h := congrArg List.length (objectKeys_eq members)
  simp only [objectKeys, List.length_map, List.length_append] at h
  rw [h, (indexKeys_perm _).length_eq,
    List.length_eq_length_filter_add (l := firstKeys (members.map Prod.fst))
      (fun k => (arrayIndex k).isSome)]
  congr 2
  apply List.filter_congr
  intro k _
  cases arrayIndex k <;> rfl

/-- With distinct names none of which is an array index, `Object.entries` gives the
members in the order received. -/
theorem objectEntries_plain {α : Type} (members : List (String × α))
    (hnodup : (members.map Prod.fst).Nodup) (hplain : ∀ e ∈ members, arrayIndex e.1 = none) :
    objectEntries members = members := by
  have hK : firstKeys (members.map Prod.fst) = members.map Prod.fst :=
    firstKeys_nodup _ hnodup
  have hnone : ∀ k ∈ members.map Prod.fst, arrayIndex k = none := by
    intro k hk
    obtain ⟨e, he, rfl⟩ := List.mem_map.1 hk
    exact hplain e he
  have hown : ownKeys members = members.map Prod.fst := by
    unfold ownKeys
    rw [hK, indexKeys_none _ hnone, List.nil_append, List.filter_eq_self.2]
    intro k hk
    simp [hnone k hk]
  unfold objectEntries
  rw [hown, List.filterMap_map]
  have hall : ∀ sub : List (String × α), (∀ e ∈ sub, e ∈ members) →
      sub.filterMap ((fun k => (lastValue k members).map (fun v => (k, v))) ∘ Prod.fst)
        = sub := by
    intro sub
    induction sub with
    | nil => intro _; rfl
    | cons e es ih =>
      intro hsub
      have he := lastValue_nodup members hnodup e (hsub e (by simp))
      have ih2 := ih (fun x hx => hsub x (by simp [hx]))
      simp [List.filterMap_cons, he, ih2]
  exact hall members (fun _ h => h)

/-! ## The text of a card -/

theorem digitChar_ne (n : Nat) : Nat.digitChar (n % 10) ≠ '<' := by
  have h : n % 10 < 10 := Nat.mod_lt _ (by decide)
  interval_cases n % 10 <;> decide

theorem toDigitsCore_ne (fuel n : Nat) (ds : List Char) (h : ∀ c ∈ ds, c ≠ '<') :
    ∀ c ∈ Nat.toDigitsCore 10 fuel n ds, c ≠ '<' := by
  induction fuel generalizing n ds with
  | zero => simpa [Nat.toDigitsCore] using h
  | succ fuel ih =>
    have hd : ∀ c ∈ Nat.digitChar (n % 10) :: ds, c ≠ '<' := by
      intro c hc
      rcases List.mem_cons.1 hc with rfl | hc
      · exact digitChar_ne n
      · exact h c hc
    simp only [Nat.toDigitsCore]
    split_ifs
    · exact hd
    · exact ih _ _ hd

/-- The decimal digits of a number hold no `<`. -/
theorem toString_ne (n : Nat) : ∀ c ∈ (toString n).data, c ≠ '<' := by
  have h : (toString n).data = Nat.toDigitsCore 10 (n + 1) n [] := rfl
  rw [h]
  exact toDigitsCore_ne _ _ _ (by simp)

theorem capacityText_ne (details : Activity) : ∀ c ∈ (capacityText details).data, c ≠ '<' := by
  intro c hc
  simp only [capacityText, String.data_append, List.mem_append] at hc
  rcases hc with (hc | hc) | hc
  · exact toString_ne _ c hc
  · have : c = '/' := by simpa using hc
    subst this
    decide
  · exact toString_ne _ c hc

theorem after_char (X : List Char) (O : List StartTag) (t : Tokenizer) (c : Char) :
    (t.after X O).char c = (t.char c).after X O := by
  simp [Tokenizer.after, Tokenizer.char, List.append_assoc]

theorem after_toData (X : List Char) (O : List StartTag) (t : Tokenizer) :
    (t.after X O).toData = t.toData.after X O := rfl

theorem after_emit (X : List Char) (O : List StartTag) (t : Tokenizer) :
    (t.after X O).emit = t.emit.after X O := by
  rcases t with ⟨state, isEnd, name, attrs, text, out⟩
  cases isEnd <;> simp [Tokenizer.after, Tokenizer.emit, List.append_assoc]

theorem after_newAttr (X : List Char) (O : List StartTag) (t : Tokenizer) (c : Char) :
    (t.after X O).newAttr c = (t.newAttr c).after X O := rfl

theorem after_pushName (X : List Char) (O : List StartTag) (t : Tokenizer) (c : Char) :
    (t.after X O).pushName c = (t.pushName c).after X O := by
  rcases t with ⟨state, isEnd, name, attrs, text, out⟩
  cases attrs <;> rfl

theorem after_pushValue (X : List Char) (O : List StartTag) (t : Tokenizer) (c : Char) :
    (t.after X O).pushValue c = (t.pushValue c).after X O := by
  rcases t with ⟨state, isEnd, name, attrs, text, out⟩
  cases attrs <;> rfl

theorem after_afterName (X : List Char) (O : List StartTag) (t : Tokenizer) (c : Char) :
    (t.after X O).afterName c = (t.afterName c).after X O := by
  unfold Tokenizer.afterName
  split_ifs
  · rfl
  · rfl
  · rfl
  · exact after_emit X O t
  · rfl

theorem after_beforeName (X : List Char) (O : List StartTag) (t : Tokenizer) (c : Char) :
    (t.after X O).beforeName c = (t.beforeName c).after X O := by
  unfold Tokenizer.beforeName
  split_ifs
  · rfl
  · exact after_afterName X O t c
  · rfl

/-- What the tokenizer emits does not depend on what it emitted before. -/
theorem step_prefix (X : List Char) (O : List StartTag) (t : Tokenizer) (c : Char) :
    (t.after X O).step c = (t.step c).after X O := by
  have hs : (t.after X O).state = t.state := rfl
  unfold Tokenizer.step
  rw [hs]
  cases t.state <;> simp only []
  · split_ifs
    · rfl
    · exact after_char X O t c
  · split_ifs
    · rfl
    · rfl
    · rfl
    · rw [after_char]; rfl
    · rw [after_char, after_char, after_toData]
  · split_ifs
    · rfl
    · exact after_toData X O t
    · rfl
  · split_ifs
    · rfl
    · rfl
    · exact after_emit X O t
    · rfl
  · exact after_beforeName X O t c
  · split_ifs
    · exact after_afterName X O t c
    · rfl
    · exact after_pushName X O t c
  · exact after_afterName X O t c
  · split_ifs
    · rfl
    · rfl
    · rfl
    · exact after_emit X O t
    · rw [after_pushValue]; rfl
  · split_ifs
    · rfl
    · exact after_pushValue X O t c
  · split_ifs
    · rfl
    · exact after_pushValue X O t c
  · split_ifs
    · rfl
    · exact after_emit X O t
    · exact after_pushValue X O t c
  · split_ifs
    · rfl
    · rfl
    · exact after_emit X O t
    · exact after_beforeName X O t c
  · split_ifs
    · exact after_emit X O t
    · exact after_beforeName X O t c
  · split_ifs
    · exact after_toData X O t
    · rfl

theorem run_prefix (cs : List Char) (t : Tokenizer) (X : List Char) (O : List StartTag) :
    (t.after X O).run cs = (t.run cs).after X O := by
  induction cs generalizing t with
  | nil => rfl
  | cons c cs ih =>
    have h1 : (t.after X O).run (c :: cs) = ((t.after X O).step c).run cs := rfl
    have h2 : t.run (c :: cs) = (t.step c).run cs := rfl
    rw [h1, h2, step_prefix, ih]

theorem run_append (t : Tokenizer) (xs ys : List Char) :
    Tokenizer.run t (xs ++ ys) = Tokenizer.run (Tokenizer.run t xs) ys := by
  simp [Tokenizer.run]

/-- In the data state, input without `<` is emitted as character tokens. -/
theorem run_text (cs : List Char) (t : Tokenizer) (hs : t.state = .data)
    (h : ∀ c ∈ cs, c ≠ '<') : Tokenizer.run t cs = { t with text := t.text ++ cs } := by
  induction cs generalizing t with
  | nil => simp [Tokenizer.run]
  | cons c cs ih =>
    have hc : c ≠ '<' := h c (by simp)
    have hstep : Tokenizer.step t c = { t with text := t.text ++ [c] } := by
      rcases t with ⟨state, isEnd, name, attrs, text, out⟩
      simp only at hs
      subst hs
      simp [Tokenizer.step, Tokenizer.char, hc]
    have ih2 := ih { t with text := t.text ++ [c] } hs (fun x hx => h x (by simp [hx]))
    simp only [Tokenizer.run, List.foldl_cons] at ih2 ⊢
    rw [hstep, ih2]
    simp

theorem run_literal (lit : List Char) (T : List Char) (O : List StartTag)
    (h : Tokenizer.run Tokenizer.init lit = Tokenizer.dataWith T O)
    (X : List Char) (O2 : List StartTag) :
    Tokenizer.run (Tokenizer.dataWith X O2) lit = Tokenizer.dataWith (X ++ T) (O2 ++ O) := by
  have hp := run_prefix lit Tokenizer.init X O2
  have hi : Tokenizer.init.after X O2 = Tokenizer.dataWith X O2 := by
    simp [Tokenizer.after, Tokenizer.dataWith, Tokenizer.init]
  rw [hi, h] at hp
  rw [hp]
  rfl

theorem run_dataText (cs : List Char) (X : List Char) (O : List StartTag)
    (h : ∀ c ∈ cs, c ≠ '<') :
    Tokenizer.run (Tokenizer.dataWith X O) cs = Tokenizer.dataWith (X ++ cs) O :=
  run_text cs _ rfl h

theorem run_rest (cs : List Char) (X : List Char) (O : List StartTag) :
    (Tokenizer.run (Tokenizer.dataWith X O) cs).text
      = X ++ (Tokenizer.run Tokenizer.init cs).text := by
  have hp := run_prefix cs Tokenizer.init X O
  have hi : Tokenizer.init.after X O = Tokenizer.dataWith X O := by
    simp [Tokenizer.after, Tokenizer.dataWith, Tokenizer.init]
  rw [hi] at hp
  rw [hp]
  rfl

/-- With a name, a description and a schedule free of `<`, the text of the card shows
the capacity after the label. -/
theorem visibleText_capacity (name : String) (details : Activity)
    (hname : ∀ c ∈ name.data, c ≠ '<') (hdesc : ∀ c ∈ details.description.data, c ≠ '<')
    (hsched : ∀ c ∈ details.schedule.data, c ≠ '<') :
    ∃ pre post, visibleText (cardHTML name details)
      = pre ++ "Capacity: " ++ capacityText details ++ post := by
  have h1 := run_literal "\n            <h4>".data _ _
    (by decide! : Tokenizer.run Tokenizer.init "\n            <h4>".data
      = Tokenizer.dataWith "\n            ".data [⟨"h4", []⟩])
  have h2 := run_literal "</h4>\n            <p><strong>Description:</strong> ".data _ _
    (by decide! :
      Tokenizer.run Tokenizer.init "</h4>\n            <p><strong>Description:</strong> ".data
        = Tokenizer.dataWith "\n            Description: ".data [⟨"p", []⟩, ⟨"strong", []⟩])
  have h3 := run_literal "</p>\n            <p><strong>Schedule:</strong> ".data _ _
    (by decide! :
      Tokenizer.run Tokenizer.init "</p>\n            <p><strong>Schedule:</strong> ".data
        = Tokenizer.dataWith "\n            Schedule: ".data [⟨"p", []⟩, ⟨"strong", []⟩])
  have h4 := run_literal "</p>\n            <p><strong>Capacity:</strong> ".data _ _
    (by decide! :
      Tokenizer.run Tokenizer.init "</p>\n            <p><strong>Capacity:</strong> ".data
        = Tokenizer.dataWith "\n            Capacity: ".data [⟨"p", []⟩, ⟨"strong", []⟩])
  have hinit : Tokenizer.init = Tokenizer.dataWith [] [] := rfl
  have hdata : (cardHTML name details).data
      = "\n            <h4>".data ++ (name.data
        ++ ("</h4>\n            <p><strong>Description:</strong> ".data
        ++ (details.description.data
        ++ ("</p>\n            <p><strong>Schedule:</strong> ".data
        ++ (details.schedule.data
        ++ ("</p>\n            <p><strong>Capacity:</strong> ".data
        ++ ((capacityText details).data
        ++ ("</p>\n            <div class=\"participants-section\">\n                <p><strong>Current Participants:</strong></p>\n                "
          ++ participantsList name details ++ "\n            </div>\n        ").data))))))) := by
    simp only [cardHTML, String.data_append, List.append_assoc]
  refine ⟨"\n            " ++ name ++ "\n            Description: " ++ details.description
      ++ "\n            Schedule: " ++ details.schedule ++ "\n            ",
    String.mk (Tokenizer.run Tokenizer.init
      ("</p>\n            <div class=\"participants-section\">\n                <p><strong>Current Participants:</strong></p>\n                "
        ++ participantsList name details ++ "\n            </div>\n        ").data).text, ?_⟩
  unfold visibleText
  rw [hdata, run_append, run_append, run_append, run_append, run_append, run_append,
    run_append, run_append, hinit, h1, run_dataText _ _ _ hname, h2,
    run_dataText _ _ _ hdesc, h3, run_dataText _ _ _ hsched, h4,
    run_dataText _ _ _ (capacityText_ne details), run_rest]
  apply String.ext
  simp only [String.data_append, List.append_assoc, List.nil_append]
  rfl

/-! ## C3: the rendered list -/

/-- C3, as stated, fails. A collection received with the names `b`, `10`, `2` in this
order is rendered in the order `2`, `10`, `b`: `Object.entries` puts the names that are
array indices first, in ascending numeric order. And for the activity name `<p title="`
the text of the card shows no capacity: the interpolated name opens an attribute value
that swallows the capacity paragraph. -/
theorem displayActivities_reorders :
    (displayActivities [("b", chess), ("10", chess), ("2", chess)] page0).activitiesList
      = [card ("2", chess), card ("10", chess), card ("b", chess)] ∧
    visibleText (cardHTML "<p title=\"" chess)
      = "\n            \n                Current Participants:\n                \n                \n                  \n                    a@x.com\n                    ❌\n                  \n                \n                  \n                    b@x.com\n                    ❌\n                  \n                \n               \n            \n        " := by
  decide!

/-- C3, amended: for every collection received and every prior page, after
`displayActivities` the list container holds exactly one `div.activity-card` per
distinct activity name, the i-th built from the i-th entry of `Object.entries`: the
names that are array indices (canonical decimal numerals below 2^32 - 1) first, in
ascending numeric order, then the other names in the order received, each with the
details of its last member; so in the order received when the names are distinct and
none is an array index. When name, description and schedule hold no `<`, the text of
the card shows the capacity as the number of participants, a slash and
`max_participants` (a safe integer). The result does not depend on the prior content
of the container, and rendering twice equals rendering once. -/
theorem displayActivities_view (activities : ActivityCollection) (p q : Page) :
    (displayActivities activities p).activitiesList.length
      = (firstKeys (activities.map Prod.fst)).length ∧
    (∀ i : Nat, (displayActivities activities p).activitiesList[i]?
        = (objectEntries activities)[i]?.map (fun e =>
            Element.mk "div" "activity-card" (cardHTML e.1 e.2))) ∧
    (objectEntries activities).map Prod.fst
      = indexKeys (firstKeys (activities.map Prod.fst))
        ++ (firstKeys (activities.map Prod.fst)).filter (fun k => (arrayIndex k).isNone) ∧
    (indexKeys (firstKeys (activities.map Prod.fst))).Perm
      ((firstKeys (activities.map Prod.fst)).filter (fun k => (arrayIndex k).isSome)) ∧
    ((indexKeys (firstKeys (activities.map Prod.fst))).filterMap arrayIndex).Sorted
      (fun a b => a ≤ b) ∧
    (∀ e ∈ objectEntries activities, lastValue e.1 activities = some e.2) ∧
    ((activities.map Prod.fst).Nodup → (∀ e ∈ activities, arrayIndex e.1 = none) →
      (displayActivities activities p).activitiesList = activities.map card) ∧
    (∀ name details, (∀ c ∈ name.data, c ≠ '<') →
      (∀ c ∈ details.description.data, c ≠ '<') → (∀ c ∈ details.schedule.data, c ≠ '<') →
      ∃ pre post, visibleText (cardHTML name details)
        = pre ++ "Capacity: " ++ (toString details.participants.length ++ "/"
            ++ toString details.max_participants.val) ++ post) ∧
    (displayActivities activities p).activitiesList
      = (displayActivities activities q).activitiesList ∧
    displayActivities activities (displayActivities activities p)
      = displayActivities activities p := by
  refine ⟨?_, ?_, objectKeys_eq activities, indexKeys_perm _, indexKeys_sorted _,
    objectEntries_value activities, ?_, ?_, by simp [displayActivities_eq],
    by simp [displayActivities_eq]⟩
  · simp [displayActivities_eq, objectEntries_length]
  · intro i
    simp only [displayActivities_eq, List.getElem?_map]
    rfl
  · intro hnodup hplain
    simp [displayActivities_eq, objectEntries_plain activities hnodup hplain]
  · intro name details hname hdesc hsched
    exact visibleText_capacity name details hname hdesc hsched

/-- C3, amended, at the one-activity collection `Chess Club`. -/
theorem displayActivities_view_witness :
    (displayActivities [("Chess Club", chess)] page0).activitiesList
      = [("Chess Club", chess)].map card ∧
    (∃ pre post, visibleText (cardHTML "Chess Club" chess)
      = pre ++ "Capacity: " ++ (toString chess.participants.length ++ "/"
          ++ toString chess.max_participants.val) ++ post) :=
  ⟨(displayActivities_view [("Chess Club", chess)] page0 page0).2.2.2.2.2.2.1
      (by decide) (by decide!),
    (displayActivities_view [("Chess Club", chess)] page0 page0).2.2.2.2.2.2.2.1
      "Chess Club" chess (by decide) (by decide) (by decide)⟩

/-! ## Percent-encoding lemmas -/

theorem char_valid (c : Char) : c.toNat.isValidChar := c.valid

theorem char_lt (c : Char) : c.toNat < 0x110000 := by
  rcases char_valid c with h | h
  · omega
  · exact h.2

theorem hexValue_hexDigit (d : Nat) (h : d < 16) : hexValue (hexDigit d) = some d := by
  interval_cases d <;> rfl

theorem hexDigit_toNat (d : Nat) (h : d < 16) :
    (48 ≤ (hexDigit d).toNat ∧ (hexDigit d).toNat ≤ 57) ∨
      (65 ≤ (hexDigit d).toNat ∧ (hexDigit d).toNat ≤ 70) := by
  interval_cases d <;> decide

theorem utf8Octets_lt (n : Nat) (h : n < 0x110000) : ∀ b ∈ utf8Octets n, b < 256 := by
  intro b hb
  unfold utf8Octets at hb
  split_ifs at hb <;> simp at hb <;> omega

theorem isPlain_of_unescaped (c : Char) (h : isUnescaped c.toNat = true) :
    isPlain c = true := by
  simp [isPlain, h]

theorem percentOctet_plain (b : Nat) (h : b < 256) : ∀ x ∈ percentOctet b, isPlain x = true := by
  intro x hx
  simp only [percentOctet, List.mem_cons, List.mem_singleton, List.not_mem_nil, or_false] at hx
  rcases hx with rfl | rfl | rfl
  · rfl
  · have := hexDigit_toNat (b / 16) (by omega)
    simp only [isPlain, isUnescaped]
    simp; omega
  · have := hexDigit_toNat (b % 16) (by omega)
    simp only [isPlain, isUnescaped]
    simp; omega

theorem percentCodePoint_plain (n : Nat) (h : n < 0x110000) :
    ∀ x ∈ percentCodePoint n, isPlain x = true := by
  intro x hx
  unfold percentCodePoint at hx
  rw [List.mem_flatMap] at hx
  obtain ⟨b, hb, hx⟩ := hx
  exact percentOctet_plain b (utf8Octets_lt n h b hb) x hx

/-- An encoder that keeps only characters `encodeURIComponent` keeps yields plain
characters. -/
theorem encodeWith_plain (keep : Nat → Bool) (hk : ∀ n, keep n = true → isUnescaped n = true)
    (cs : List Char) : ∀ x ∈ encodeWith keep cs, isPlain x = true := by
  intro x hx
  unfold encodeWith at hx
  rw [List.mem_flatMap] at hx
  obtain ⟨c, _, hx⟩ := hx
  split_ifs at hx with hc
  · simp only [List.mem_singleton] at hx
    subst hx
    exact isPlain_of_unescaped _ (hk _ hc)
  · exact percentCodePoint_plain _ (char_lt c) x hx

theorem isPlain_facts (x : Char) (h : isPlain x = true) :
    isDelimiter x = false ∧ 0x20 < x.toNat ∧ x.toNat ≠ 92 ∧ inPathSet x.toNat = false ∧
      (inSpecialQuerySet x.toNat = true ↔ x.toNat = 39) := by
  simp only [isPlain, isUnescaped, Bool.or_eq_true, Bool.and_eq_true, decide_eq_true_eq,
    beq_iff_eq] at h
  simp only [isDelimiter, inPathSet, inSpecialQuerySet, inQuerySet, inC0ControlSet,
    Bool.or_eq_false_iff, Bool.or_eq_true, beq_eq_false_iff_ne, beq_iff_eq,
    decide_eq_true_eq, decide_eq_false_iff_not]
  omega

/-! ## `encodeURIComponent` on a text -/

theorem encodeFrom_char (c : Char) (rest : List Nat) (r : List Char)
    (hr : encodeFrom none rest = some r) :
    encodeFrom none (utf16Units c.toNat ++ rest)
      = some ((if isUnescaped c.toNat then [c] else percentCodePoint c.toNat) ++ r) := by
  have hv := char_valid c
  unfold utf16Units
  split_ifs with h1 hu hu
  · simp [encodeFrom, hu, hr]
  · have hl : isLead c.toNat = false := by
      simp only [isLead, Bool.and_eq_false_iff, decide_eq_false_iff_not]
      rcases hv with h | h <;> omega
    have ht : isTrail c.toNat = false := by
      simp only [isTrail, Bool.and_eq_false_iff, decide_eq_false_iff_not]
      rcases hv with h | h <;> omega
    simp [encodeFrom, hu, hl, ht, hr]
  · exfalso
    simp only [isUnescaped, Bool.or_eq_true, Bool.and_eq_true, decide_eq_true_eq,
      beq_iff_eq] at hu
    omega
  · have hlt := char_lt c
    have hu1 : isUnescaped (0xD800 + (c.toNat - 0x10000) / 0x400) = false := by
      simp only [isUnescaped, Bool.or_eq_false_iff, Bool.and_eq_false_iff,
        decide_eq_false_iff_not, beq_eq_false_iff_ne]
      omega
    have hl : isLead (0xD800 + (c.toNat - 0x10000) / 0x400) = true := by
      simp only [isLead, Bool.and_eq_true, decide_eq_true_eq]
      omega
    have ht : isTrail (0xDC00 + (c.toNat - 0x10000) % 0x400) = true := by
      simp only [isTrail, Bool.and_eq_true, decide_eq_true_eq]
      omega
    have e : (0xD800 + (c.toNat - 0x10000) / 0x400 - 0xD800) * 0x400
        + (0xDC00 + (c.toNat - 0x10000) % 0x400 - 0xDC00) + 0x10000 = c.toNat := by
      omega
    simp only [List.cons_append, List.nil_append]
    rw [encodeFrom, if_neg (by simp [hu1]), if_pos hl, encodeFrom, if_pos ht, hr, e]
    rfl

/-- On the code units of a text `encodeURIComponent` does not throw and encodes code
point by code point. -/
theorem encodeFrom_utf16 (cs : List Char) :
    encodeFrom none (cs.flatMap (fun c => utf16Units c.toNat))
      = some (encodeWith isUnescaped cs) := by
  induction cs with
  | nil => rfl
  | cons c cs ih =>
    rw [List.flatMap_cons, encodeFrom_char c _ _ ih]
    simp [encodeWith]

theorem encodeURIComponent_utf16 (s : String) :
    encodeURIComponent (utf16 s) = some (encodeText s) := by
  simp [encodeURIComponent, utf16, encodeFrom_utf16, encodeText]

/-- `encodeURIComponent` throws exactly on the strings that are not well formed. -/
theorem encodeFrom_none_iff (v : List Nat) (pending : Option Nat) :
    encodeFrom pending v = none ↔ wellFormedFrom pending.isSome v = false := by
  induction v generalizing pending with
  | nil => cases pending <;> simp [encodeFrom, wellFormedFrom]
  | cons u rest ih =>
    cases pending with
    | none =>
      have ih1 := ih none
      have ih2 := ih (some u)
      simp only [Option.isSome_none, Option.isSome_some] at ih1 ih2 ⊢
      by_cases hu : isUnescaped u = true
      · have hl : isLead u = false := by
          simp only [isUnescaped, Bool.or_eq_true, Bool.and_eq_true, decide_eq_true_eq,
            beq_iff_eq] at hu
          simp only [isLead, Bool.and_eq_false_iff, decide_eq_false_iff_not]
          omega
        have ht : isTrail u = false := by
          simp only [isUnescaped, Bool.or_eq_true, Bool.and_eq_true, decide_eq_true_eq,
            beq_iff_eq] at hu
          simp only [isTrail, Bool.and_eq_false_iff, decide_eq_false_iff_not]
          omega
        rw [encodeFrom, wellFormedFrom, if_pos hu]
        simp [hl, ht, ih1]
      · rw [encodeFrom, wellFormedFrom, if_neg hu]
        by_cases hl : isLead u = true
        · simp [hl, ih2]
        · by_cases ht : isTrail u = true
          · simp [hl, ht]
          · simp [hl, ht, ih1]
    | some lead =>
      have ih1 := ih none
      simp only [Option.isSome_none, Option.isSome_some] at ih1 ⊢
      rw [encodeFrom, wellFormedFrom]
      by_cases ht : isTrail u = true
      · simp [ht, ih1]
      · simp [ht]

theorem encodeURIComponent_none_iff (v : JsString) :
    encodeURIComponent v = none ↔ isWellFormed v = false := by
  simp [encodeURIComponent, isWellFormed, encodeFrom_none_iff v none]

theorem utf16_wellFormed (s : String) : isWellFormed (utf16 s) = true := by
  have h := encodeURIComponent_none_iff (utf16 s)
  rw [encodeURIComponent_utf16] at h
  cases hw : isWellFormed (utf16 s)
  · exact absurd (h.2 hw) (by simp)
  · rfl

theorem utf16_eq_nil (s : String) : utf16 s = [] ↔ s = "" := by
  constructor
  · intro h
    rcases s with ⟨cs⟩
    cases cs with
    | nil => rfl
    | cons c cs =>
      exfalso
      simp only [utf16, List.flatMap_cons, utf16Units] at h
      split_ifs at h <;> simp at h
  · intro h
    subst h
    rfl

/-! ## Decoding what was encoded -/

theorem percentTokens_octet (b : Nat) (h : b < 256) (rest : List Char)
    (tokens : List (Char ⊕ Nat)) (hr : percentTokens rest = some tokens) :
    percentTokens (percentOctet b ++ rest) = some (.inr b :: tokens) := by
  have h1 := hexValue_hexDigit (b / 16) (by omega)
  have h2 := hexValue_hexDigit (b % 16) (by omega)
  have h3 : 16 * (b / 16) + b % 16 = b := by omega
  have h4 : (Char.ofNat 37).toNat = 37 := rfl
  simp [percentOctet, percentTokens, h1, h2, h3, hr]

theorem percentTokens_octets (bs : List Nat) (h : ∀ b ∈ bs, b < 256) (rest : List Char)
    (tokens : List (Char ⊕ Nat)) (hr : percentTokens rest = some tokens) :
    percentTokens (bs.flatMap percentOctet ++ rest) = some (bs.map .inr ++ tokens) := by
  induction bs with
  | nil => simpa using hr
  | cons b bs ih =>
    have hb : b < 256 := h b (by simp)
    have ih2 := ih (fun x hx => h x (by simp [hx]))
    rw [List.flatMap_cons, List.append_assoc]
    rw [percentTokens_octet b hb _ _ ih2]
    simp

theorem percentTokens_encodeWith (keep : Nat → Bool) (hk : keep 37 = false) (cs : List Char) :
    percentTokens (encodeWith keep cs) = some (cs.flatMap (tokensOf keep)) := by
  induction cs with
  | nil => rfl
  | cons c cs ih =>
    have hstep : encodeWith keep (c :: cs)
        = (if keep c.toNat then [c] else percentCodePoint c.toNat) ++ encodeWith keep cs := by
      simp [encodeWith]
    rw [hstep, List.flatMap_cons]
    by_cases hu : keep c.toNat = true
    · have h37 : c.toNat ≠ 37 := by
        intro h
        rw [h, hk] at hu
        exact absurd hu (by decide)
      simp only [tokensOf, hu, if_true, List.singleton_append]
      conv_lhs => unfold percentTokens
      simp [h37, ih]
    · have hl := utf8Octets_lt c.toNat (char_lt c)
      simp only [tokensOf, hu, percentCodePoint]
      exact percentTokens_octets _ hl _ _ ih

theorem codePoint_toNat (least : Nat) (c : Char) (h : least ≤ c.toNat) :
    codePoint least c.toNat = some c := by
  simp [codePoint, h, char_valid c]

theorem isContinuation_low (n : Nat) : isContinuation (0x80 + n % 64) = true := by
  simp [isContinuation]; omega

theorem decodeFrom_last (p : Pending) (b : Nat) (rest : List (Char ⊕ Nat)) (c : Char)
    (cs : List Char) (hm : p.more = 0) (hb : isContinuation b = true)
    (hn : p.bits * 64 + (b - 0x80) = c.toNat) (hl : p.least ≤ c.toNat)
    (hr : decodeFrom none rest = some cs) :
    decodeFrom (some p) (.inr b :: rest) = some (c :: cs) := by
  rw [decodeFrom, if_pos hb, hm]
  simp only []
  rw [hn, codePoint_toNat p.least c hl]
  simp only [hr, Option.map_some']

theorem decodeFrom_more (p : Pending) (k b : Nat) (rest : List (Char ⊕ Nat))
    (hm : p.more = k + 1) (hb : isContinuation b = true) :
    decodeFrom (some p) (.inr b :: rest)
      = decodeFrom (some ⟨k, p.bits * 64 + (b - 0x80), p.least⟩) rest := by
  rw [decodeFrom, if_pos hb, hm]

theorem decodeFrom_lead2 (b : Nat) (rest : List (Char ⊕ Nat)) (h1 : 0xC0 ≤ b) (h2 : b < 0xE0) :
    decodeFrom none (.inr b :: rest) = decodeFrom (some ⟨0, b - 0xC0, 0x80⟩) rest := by
  rw [decodeFrom, if_neg (by omega), if_neg (by omega), if_pos h2]

theorem decodeFrom_lead3 (b : Nat) (rest : List (Char ⊕ Nat)) (h1 : 0xE0 ≤ b) (h2 : b < 0xF0) :
    decodeFrom none (.inr b :: rest) = decodeFrom (some ⟨1, b - 0xE0, 0x800⟩) rest := by
  rw [decodeFrom, if_neg (by omega), if_neg (by omega), if_neg (by omega), if_pos h2]

theorem decodeFrom_lead4 (b : Nat) (rest : List (Char ⊕ Nat)) (h1 : 0xF0 ≤ b) (h2 : b < 0xF8) :
    decodeFrom none (.inr b :: rest) = decodeFrom (some ⟨2, b - 0xF0, 0x10000⟩) rest := by
  rw [decodeFrom, if_neg (by omega), if_neg (by omega), if_neg (by omega), if_neg (by omega),
    if_pos h2]

theorem decodeTokens_tokensOf (keep : Nat → Bool) (c : Char) (rest : List (Char ⊕ Nat))
    (cs : List Char) (hr : decodeFrom none rest = some cs) :
    decodeFrom none (tokensOf keep c ++ rest) = some (c :: cs) := by
  have hlt := char_lt c
  unfold tokensOf
  split_ifs with hu
  · simp [decodeFrom, hr]
  · unfold utf8Octets
    split_ifs with h1 h2 h3
    · simp [decodeFrom, h1, hr]
    · simp only [List.map_cons, List.map_nil, List.cons_append, List.nil_append]
      rw [decodeFrom_lead2 _ _ (by omega) (by omega)]
      exact decodeFrom_last _ _ _ c cs rfl (isContinuation_low _) (by simp only []; omega)
        (by simp only []; omega) hr
    · simp only [List.map_cons, List.map_nil, List.cons_append, List.nil_append]
      rw [decodeFrom_lead3 _ _ (by omega) (by omega),
        decodeFrom_more _ 0 _ _ rfl (isContinuation_low _)]
      exact decodeFrom_last _ _ _ c cs rfl (isContinuation_low _) (by simp only []; omega)
        (by simp only []; omega) hr
    · simp only [List.map_cons, List.map_nil, List.cons_append, List.nil_append]
      rw [decodeFrom_lead4 _ _ (by omega) (by omega),
        decodeFrom_more _ 1 _ _ rfl (isContinuation_low _),
        decodeFrom_more _ 0 _ _ rfl (isContinuation_low _)]
      exact decodeFrom_last _ _ _ c cs rfl (isContinuation_low _) (by simp only []; omega)
        (by simp only []; omega) hr

theorem decodeTokens_flatMap (keep : Nat → Bool) (cs : List Char) :
    decodeTokens (cs.flatMap (tokensOf keep)) = some cs := by
  unfold decodeTokens
  induction cs with
  | nil => rfl
  | cons c cs ih =>
    rw [List.flatMap_cons]
    exact decodeTokens_tokensOf keep c _ _ ih

/-- Decoding a percent-encoded text gives the text back, whatever set of characters
other than `%` the encoder left as they are. -/
theorem decode_encodeWith (keep : Nat → Bool) (hk : keep 37 = false) (s : String) :
    decodeURIComponent (String.mk (encodeWith keep s.data)) = some s := by
  simp [decodeURIComponent, percentTokens_encodeWith keep hk, decodeTokens_flatMap]

theorem decode_encodeText (s : String) : decodeURIComponent (encodeText s) = some s :=
  decode_encodeWith isUnescaped (by decide) s

theorem encodeText_injective (s t : String) (h : encodeText s = encodeText t) : s = t := by
  have hs := decode_encodeText s
  rw [h, decode_encodeText t] at hs
  exact (Option.some.inj hs).symm

/-! ## The two request targets -/

theorem signupUrl_none_iff (activity email : JsString) :
    signupUrl activity email = none
      ↔ isWellFormed activity = false ∨ isWellFormed email = false := by
  rw [← encodeURIComponent_none_iff, ← encodeURIComponent_none_iff]
  unfold signupUrl
  cases encodeURIComponent activity <;> cases encodeURIComponent email <;> simp

theorem unregisterUrl_none_iff (activity email : JsString) :
    unregisterUrl activity email = none
      ↔ isWellFormed activity = false ∨ isWellFormed email = false := by
  rw [← encodeURIComponent_none_iff, ← encodeURIComponent_none_iff]
  unfold unregisterUrl
  cases encodeURIComponent activity <;> cases encodeURIComponent email <;> simp

theorem signupUrl_some (activity email : JsString) (ha : isWellFormed activity = true)
    (he : isWellFormed email = true) : ∃ target, signupUrl activity email = some target := by
  cases h : signupUrl activity email with
  | none =>
    rcases (signupUrl_none_iff activity email).1 h with h1 | h1
    · rw [ha] at h1; exact absurd h1 (by decide)
    · rw [he] at h1; exact absurd h1 (by decide)
  | some target => exact ⟨target, rfl⟩

theorem unregisterUrl_some (activity email : JsString) (ha : isWellFormed activity = true)
    (he : isWellFormed email = true) :
    ∃ target, unregisterUrl activity email = some target := by
  cases h : unregisterUrl activity email with
  | none =>
    rcases (unregisterUrl_none_iff activity email).1 h with h1 | h1
    · rw [ha] at h1; exact absurd h1 (by decide)
    · rw [he] at h1; exact absurd h1 (by decide)
  | some target => exact ⟨target, rfl⟩

theorem signupUrl_utf16 (activity email : String) :
    signupUrl (utf16 activity) (utf16 email)
      = some ("/activities/" ++ encodeText activity ++ "/signup?email=" ++ encodeText email) := by
  simp [signupUrl, encodeURIComponent_utf16]

theorem unregisterUrl_utf16 (activity email : String) :
    unregisterUrl (utf16 activity) (utf16 email)
      = some ("/activities/" ++ encodeText activity ++ "/unregister?email="
          ++ encodeText email) := by
  simp [unregisterUrl, encodeURIComponent_utf16]

/-! ## C5: the signup precondition -/

/-- C5, as stated, fails: the email is the one code unit `\uD800` (a lone surrogate) and
the activity is `Chess Club`, both non-empty; `encodeURIComponent` throws before `fetch`
is called, so no POST is issued, and the generic failure message is shown. -/
theorem submit_lone_surrogate :
    ({ filled with email := [0xD800] } : Page).email ≠ [] ∧
    ({ filled with email := [0xD800] } : Page).activity ≠ [] ∧
    (setupSignupForm_submit (.response true (.value ⟨some "ok", none⟩))
        (.response true (.value [])) { filled with email := [0xD800] }).page.requests = [] ∧
    (setupSignupForm_submit (.response true (.value ⟨some "ok", none⟩))
        (.response true (.value [])) { filled with email := [0xD800] }).page.message
      = { textContent := "Failed to sign up. Please try again.",
          classList := ["message", "error"] } := by
  decide!

/-- C5, amended: when the email or the activity is empty, the submit listener shows
`Please fill in all fields` with kind error, issues no request and does not reset the
form; when both are non-empty and well formed it issues the signup POST, and that is
the only POST among the requests it issues (the other can only be the reload GET);
when both are non-empty and one holds a lone surrogate it issues no request, shows the
generic failure message and does not reset the form. -/
theorem submit_precondition (post : FetchOutcome Reply)
    (get : FetchOutcome ActivityCollection) (p : Page) :
    (p.email = [] ∨ p.activity = [] →
      (setupSignupForm_submit post get p).page.message
        = { textContent := "Please fill in all fields", classList := ["message", "error"] } ∧
      (setupSignupForm_submit post get p).page.message.visible = true ∧
      (setupSignupForm_submit post get p).page.requests = p.requests ∧
      (setupSignupForm_submit post get p).page.formResets = p.formResets ∧
      (setupSignupForm_submit post get p).page.email = p.email ∧
      (setupSignupForm_submit post get p).page.activity = p.activity) ∧
    (p.email ≠ [] ∧ p.activity ≠ [] ∧
        isWellFormed p.email = true ∧ isWellFormed p.activity = true →
      ∃ target, signupUrl p.activity p.email = some target ∧
        ((setupSignupForm_submit post get p).page.requests
            = p.requests ++ [⟨.POST, resolve target⟩] ∨
          (setupSignupForm_submit post get p).page.requests
            = p.requests ++ [⟨.POST, resolve target⟩, ⟨.GET, resolve "/activities"⟩]) ∧
        (setupSignupForm_submit post get p).page.requests.countP (fun r => r.method = .POST)
          = p.requests.countP (fun r => r.method = .POST) + 1) ∧
    (p.email ≠ [] ∧ p.activity ≠ [] ∧
        (isWellFormed p.email = false ∨ isWellFormed p.activity = false) →
      (setupSignupForm_submit post get p).page.requests = p.requests ∧
      (setupSignupForm_submit post get p).page.message
        = { textContent := "Failed to sign up. Please try again.",
            classList := ["message", "error"] } ∧
      (setupSignupForm_submit post get p).page.formResets = p.formResets ∧
      (setupSignupForm_submit post get p).page.email = p.email ∧
      (setupSignupForm_submit post get p).page.activity = p.activity) := by
  refine ⟨?_, ?_, ?_⟩
  · intro h
    simp [setupSignupForm_submit, h, showMessage, Banner.visible, classListRemove,
      Kind.toString]
  · rintro ⟨he, ha, hwe, hwa⟩
    have hcond : ¬ (p.email = [] ∨ p.activity = []) := by simp [he, ha]
    obtain ⟨target, ht⟩ := signupUrl_some p.activity p.email hwa hwe
    refine ⟨target, ht, ?_⟩
    rcases post with _ | ⟨_ | _, _ | _ | r⟩ <;>
      simp [setupSignupForm_submit, hcond, submitTry, ht, showMessage, fetch, formReset,
        loadActivities_requests, List.countP_append]
  · rintro ⟨he, ha, hw⟩
    have hcond : ¬ (p.email = [] ∨ p.activity = []) := by simp [he, ha]
    have ht : signupUrl p.activity p.email = none :=
      (signupUrl_none_iff _ _).2 (Or.symm hw)
    simp [setupSignupForm_submit, hcond, submitTry, ht, showMessage, classListRemove,
      Kind.toString]

/-- C5, amended, at the empty form, at the form filled with `a@x.com` and `Chess Club`,
and at the form whose email is a lone surrogate. -/
theorem submit_precondition_witness :
    ((setupSignupForm_submit (.response true (.value ⟨some "ok", none⟩))
          (.response true (.value [])) page0).page.message
        = { textContent := "Please fill in all fields", classList := ["message", "error"] } ∧
      (setupSignupForm_submit (.response true (.value ⟨some "ok", none⟩))
          (.response true (.value [])) page0).page.requests = []) ∧
    (setupSignupForm_submit (.response true (.value ⟨some "ok", none⟩))
          (.response true (.value [])) filled).page.requests.countP
        (fun r => r.method = .POST) = 1 ∧
    (setupSignupForm_submit (.response true (.value ⟨some "ok", none⟩))
          (.response true (.value [])) { filled with email := [0xD800] }).page.requests = [] :=
  ⟨⟨((submit_precondition (.response true (.value ⟨some "ok", none⟩))
      (.response true (.value [])) page0).1 (Or.inl rfl)).1,
    ((submit_precondition (.response true (.value ⟨some "ok", none⟩))
      (.response true (.value [])) page0).1 (Or.inl rfl)).2.2.1⟩,
   (((submit_precondition (.response true (.value ⟨some "ok", none⟩))
      (.response true (.value [])) filled).2.1
        ⟨by decide!, by decide!, by decide!, by decide!⟩).choose_spec).2.2,
   ((submit_precondition (.response true (.value ⟨some "ok", none⟩))
      (.response true (.value [])) { filled with email := [0xD800] }).2.2
        ⟨by decide!, by decide!, Or.inl (by decide!)⟩).1⟩

/-! ## C6: signup success -/

/-- C6: with both fields non-empty (and well formed, so that the POST is issued) and a
2xx reply whose body carries `message: m`, the submit listener shows `m` with kind
success, resets the form once, and issues the signup POST followed by exactly one
`GET /activities` and nothing else; no error escapes. -/
theorem submit_success (m : String) (detail : Option String)
    (get : FetchOutcome ActivityCollection) (p : Page)
    (he : p.email ≠ []) (ha : p.activity ≠ [])
    (hwe : isWellFormed p.email = true) (hwa : isWellFormed p.activity = true) :
    (setupSignupForm_submit (.response true (.value ⟨some m, detail⟩)) get p).page.message
      = { textContent := m, classList := ["message", "success"] } ∧
    (setupSignupForm_submit (.response true (.value ⟨some m, detail⟩)) get p).page.message.visible
      = true ∧
    (setupSignupForm_submit (.response true (.value ⟨some m, detail⟩)) get p).page.formResets
      = p.formResets + 1 ∧
    (setupSignupForm_submit (.response true (.value ⟨some m, detail⟩)) get p).page.email
      = p.emailDefault ∧
    (setupSignupForm_submit (.response true (.value ⟨some m, detail⟩)) get p).page.activity
      = p.activityDefault ∧
    (∃ target, signupUrl p.activity p.email = some target ∧
      (setupSignupForm_submit (.response true (.value ⟨some m, detail⟩)) get p).page.requests
        = p.requests ++ [⟨.POST, resolve target⟩, ⟨.GET, resolve "/activities"⟩]) ∧
    (setupSignupForm_submit (.response true (.value ⟨some m, detail⟩)) get p).thrown = none := by
  have hcond : ¬ (p.email = [] ∨ p.activity = []) := by simp [he, ha]
  have hf := loadActivities_frame get
  obtain ⟨target, ht⟩ := signupUrl_some p.activity p.email hwa hwe
  simp [setupSignupForm_submit, hcond, submitTry, ht, showMessage, fetch, formReset,
    loadActivities_requests, hf, textOf, Banner.visible, classListRemove, Kind.toString]

/-- C6 at the filled form with the reply `message: ok`. -/
theorem submit_success_witness :
    (setupSignupForm_submit (.response true (.value ⟨some "ok", none⟩))
        (.response true (.value [])) filled).page.message
      = { textContent := "ok", classList := ["message", "success"] } ∧
    (setupSignupForm_submit (.response true (.value ⟨some "ok", none⟩))
        (.response true (.value [])) filled).page.formResets = 0 + 1 :=
  ⟨(submit_success "ok" none (.response true (.value [])) filled (by decide!) (by decide!)
      (by decide!) (by decide!)).1,
    (submit_success "ok" none (.response true (.value [])) filled (by decide!) (by decide!)
      (by decide!) (by decide!)).2.2.1⟩

/-! ## C7: signup failure -/

/-- C7: with both fields non-empty (and well formed, so that the POST is issued), when
the reply is non-2xx with body `detail: d`, or its body cannot be parsed, or the
request is rejected, the submit listener shows a message of kind error (`d` verbatim in
the first case, `Failed to sign up. Please try again.` in the other two), does not
reset the form, issues no request besides the POST, and no error escapes. -/
theorem submit_failure (post : FetchOutcome Reply) (get : FetchOutcome ActivityCollection)
    (p : Page) (shown : String) (he : p.email ≠ []) (ha : p.activity ≠ [])
    (hwe : isWellFormed p.email = true) (hwa : isWellFormed p.activity = true)
    (hfail : (∃ message, post = .response false (.value ⟨message, some shown⟩)) ∨
      ((∃ ok, post = .response ok .unparseable) ∨ post = .rejected) ∧
        shown = "Failed to sign up. Please try again.") :
    (setupSignupForm_submit post get p).page.message
      = { textContent := shown, classList := ["message", "error"] } ∧
    (setupSignupForm_submit post get p).page.message.visible = true ∧
    (setupSignupForm_submit post get p).page.formResets = p.formResets ∧
    (setupSignupForm_submit post get p).page.email = p.email ∧
    (setupSignupForm_submit post get p).page.activity = p.activity ∧
    (∃ target, signupUrl p.activity p.email = some target ∧
      (setupSignupForm_submit post get p).page.requests
        = p.requests ++ [⟨.POST, resolve target⟩]) ∧
    (setupSignupForm_submit post get p).thrown = none := by
  have hcond : ¬ (p.email = [] ∨ p.activity = []) := by simp [he, ha]
  obtain ⟨target, ht⟩ := signupUrl_some p.activity p.email hwa hwe
  rcases hfail with ⟨message, rfl⟩ | ⟨⟨ok, rfl⟩ | rfl, rfl⟩
  · simp [setupSignupForm_submit, hcond, submitTry, ht, showMessage, fetch, textOf,
      Banner.visible, classListRemove, Kind.toString]
  · cases ok <;>
      simp [setupSignupForm_submit, hcond, submitTry, ht, showMessage, fetch,
        Banner.visible, classListRemove, Kind.toString]
  · simp [setupSignupForm_submit, hcond, submitTry, ht, showMessage, fetch,
      Banner.visible, classListRemove, Kind.toString]

/-- C7 at the filled form with a non-2xx reply carrying a detail. -/
theorem submit_failure_witness :
    (setupSignupForm_submit (.response false (.value ⟨none, some "Student is already signed up"⟩))
        (.response true (.value [])) filled).page.message
      = { textContent := "Student is already signed up", classList := ["message", "error"] } :=
  (submit_failure (.response false (.value ⟨none, some "Student is already signed up"⟩))
    (.response true (.value [])) filled "Student is already signed up" (by decide!)
    (by decide!) (by decide!) (by decide!) (Or.inl ⟨none, rfl⟩)).1

/-! ## C8: the confirmation gate of unregister -/

/-- C8, as stated, fails: the prompt is accepted and the DELETE gets a 2xx response, here
with a body that cannot be parsed, and no reload GET follows; the generic failure
message is shown. -/
theorem handleUnregister_2xx_no_reload :
    FetchOutcome.is2xx (FetchOutcome.response true (JsonBody.unparseable : JsonBody Reply))
      = true ∧
    (handleUnregister true (.response true .unparseable) (.response true (.value []))
        (utf16 "Chess Club") (utf16 "a@x.com") page0).page.requests
      = [⟨.DELETE, { path := ["activities", "Chess%20Club", "unregister"],
                     query := some "email=a%40x.com", fragment := none }⟩] ∧
    (handleUnregister true (.response true .unparseable) (.response true (.value []))
        (utf16 "Chess Club") (utf16 "a@x.com") page0).page.message.textContent
      = "Failed to unregister. Please try again." := by
  decide!

/-- C8, amended: `handleUnregister` first asks the question naming the email and the
activity; declined, it changes nothing else on the page (no request, no message, list
and selector as they were); accepted, with activity and email well formed, it issues
exactly one DELETE for that activity and email, followed by exactly one reload GET if
and only if the response is 2xx and its body parses to a JSON value other than `null`;
accepted, with a lone surrogate in the activity or the email, it issues no request and
shows the generic failure message. No error escapes. -/
theorem handleUnregister_gate (confirmed : Bool) (del : FetchOutcome Reply)
    (get : FetchOutcome ActivityCollection) (activity email : JsString) (p : Page) :
    (handleUnregister confirmed del get activity email p).page.prompts
      = p.prompts ++ [utf16 "Are you sure you want to unregister " ++ email
          ++ utf16 " from " ++ activity ++ utf16 "?"] ∧
    (handleUnregister false del get activity email p).page
      = { p with prompts := p.prompts ++ [confirmQuestion email activity] } ∧
    (isWellFormed activity = true ∧ isWellFormed email = true →
      ∃ target, unregisterUrl activity email = some target ∧
        (handleUnregister true del get activity email p).page.requests
          = p.requests ++ ⟨.DELETE, resolve target⟩ ::
              (if del.succeeded then [⟨.GET, resolve "/activities"⟩] else [])) ∧
    (isWellFormed activity = false ∨ isWellFormed email = false →
      (handleUnregister true del get activity email p).page.requests = p.requests ∧
      (handleUnregister true del get activity email p).page.message
        = { textContent := "Failed to unregister. Please try again.",
            classList := ["message", "error"] }) ∧
    (handleUnregister confirmed del get activity email p).thrown = none := by
  have hf := loadActivities_frame get
  refine ⟨?_, by simp [handleUnregister], ?_, ?_, ?_⟩
  · cases h : unregisterUrl activity email <;> cases confirmed <;>
      rcases del with _ | ⟨_ | _, _ | _ | r⟩ <;>
      simp [handleUnregister, handleUnregisterTry, h, showMessage, fetch, hf,
        confirmQuestion]
  · rintro ⟨hwa, hwe⟩
    obtain ⟨target, ht⟩ := unregisterUrl_some activity email hwa hwe
    refine ⟨target, ht, ?_⟩
    rcases del with _ | ⟨_ | _, _ | _ | r⟩ <;>
      simp [handleUnregister, handleUnregisterTry, ht, showMessage, fetch,
        loadActivities_requests, FetchOutcome.succeeded]
  · intro hw
    have ht : unregisterUrl activity email = none := (unregisterUrl_none_iff _ _).2 hw
    simp [handleUnregister, handleUnregisterTry, ht, showMessage, classListRemove,
      Kind.toString]
  · cases h : unregisterUrl activity email <;> cases confirmed <;>
      rcases del with _ | ⟨_ | _, _ | _ | r⟩ <;>
      simp [handleUnregister, handleUnregisterTry, h]

/-- C8, amended, at the control of `a@x.com` in `Chess Club` and at a control whose
email is a lone surrogate. -/
theorem handleUnregister_gate_witness :
    (∃ target, unregisterUrl (utf16 "Chess Club") (utf16 "a@x.com") = some target ∧
      (handleUnregister true (.response true (.value ⟨some "ok", none⟩))
          (.response true (.value [])) (utf16 "Chess Club") (utf16 "a@x.com")
          page0).page.requests
        = page0.requests ++ ⟨.DELETE, resolve target⟩ ::
            (if (FetchOutcome.response true (JsonBody.value (Reply.mk (some "ok") none))).succeeded
              then [⟨.GET, resolve "/activities"⟩] else [])) ∧
    (handleUnregister true (.response true (.value ⟨some "ok", none⟩))
        (.response true (.value [])) (utf16 "Chess Club") [0xD800] page0).page.requests
      = page0.requests :=
  ⟨(handleUnregister_gate true (.response true (.value ⟨some "ok", none⟩))
      (.response true (.value [])) (utf16 "Chess Club") (utf16 "a@x.com") page0).2.2.1
        ⟨by decide!, by decide!⟩,
   ((handleUnregister_gate true (.response true (.value ⟨some "ok", none⟩))
      (.response true (.value [])) (utf16 "Chess Club") [0xD800] page0).2.2.2.1
        (Or.inr (by decide!))).1⟩

/-! ## Request target lemmas -/

theorem splitFirst_append (sep : Nat) (xs : List Char) (c : Char) (ys : List Char)
    (h : ∀ x ∈ xs, x.toNat ≠ sep) (hc : c.toNat = sep) :
    splitFirst sep (xs ++ c :: ys) = (xs, some ys) := by
  induction xs with
  | nil => simp [splitFirst, hc]
  | cons x xs ih =>
    have hx : x.toNat ≠ sep := h x (by simp)
    have ih2 := ih (fun y hy => h y (by simp [hy]))
    simp [splitFirst, hx, ih2]

theorem splitFirst_none (sep : Nat) (xs : List Char) (h : ∀ x ∈ xs, x.toNat ≠ sep) :
    splitFirst sep xs = (xs, none) := by
  induction xs with
  | nil => rfl
  | cons x xs ih =>
    have hx : x.toNat ≠ sep := h x (by simp)
    have ih2 := ih (fun y hy => h y (by simp [hy]))
    simp [splitFirst, hx, ih2]

theorem splitWhere_append (p : Char → Bool) (xs : List Char) (c : Char) (ys : List Char)
    (h : ∀ x ∈ xs, p x = false) (hc : p c = true) :
    splitWhere p (xs ++ c :: ys) = xs :: splitWhere p ys := by
  induction xs with
  | nil => simp [splitWhere, hc]
  | cons x xs ih =>
    have hx : p x = false := h x (by simp)
    have ih2 := ih (fun y hy => h y (by simp [hy]))
    simp [splitWhere, hx, ih2]

theorem splitWhere_none (p : Char → Bool) (xs : List Char) (h : ∀ x ∈ xs, p x = false) :
    splitWhere p xs = [xs] := by
  induction xs with
  | nil => rfl
  | cons x xs ih =>
    have hx : p x = false := h x (by simp)
    have ih2 := ih (fun y hy => h y (by simp [hy]))
    simp [splitWhere, hx, ih2]

theorem isDelimiter_false (x : Char) (h : isDelimiter x = false) :
    x.toNat ≠ 47 ∧ x.toNat ≠ 63 ∧ x.toNat ≠ 35 ∧ x.toNat ≠ 38 ∧ x.toNat ≠ 61 := by
  simp only [isDelimiter, Bool.or_eq_false_iff, beq_eq_false_iff_ne] at h
  tauto

theorem dropWhile_none (p : Char → Bool) (xs : List Char) (h : ∀ x ∈ xs, p x = false) :
    xs.dropWhile p = xs := by
  cases xs with
  | nil => rfl
  | cons x xs => simp [List.dropWhile, h x (by simp)]

/-- Input without C0 controls and spaces is left as it is. -/
theorem cleanInput_eq (xs : List Char) (h : ∀ x ∈ xs, 0x20 < x.toNat) : cleanInput xs = xs := by
  have h1 : ∀ x ∈ xs, decide (x.toNat ≤ 0x20) = false := by
    intro x hx
    have := h x hx
    simp only [decide_eq_false_iff_not]
    omega
  have h2 : ∀ x ∈ xs.reverse, decide (x.toNat ≤ 0x20) = false :=
    fun x hx => h1 x (List.mem_reverse.1 hx)
  unfold cleanInput
  rw [dropWhile_none _ _ h1, dropWhile_none _ _ h2, List.reverse_reverse,
    List.filter_eq_self]
  intro x hx
  have := h x hx
  simp only [Bool.not_eq_true', Bool.or_eq_false_iff, beq_eq_false_iff_ne]
  omega

/-- Percent-encoding leaves a text without characters of the set as it is. -/
theorem utf8PercentEncode_eq (inSet : Nat → Bool) (xs : List Char)
    (h : ∀ x ∈ xs, inSet x.toNat = false) : utf8PercentEncode inSet xs = xs := by
  induction xs with
  | nil => rfl
  | cons x xs ih =>
    have hx := h x (by simp)
    have ih2 := ih (fun y hy => h y (by simp [hy]))
    simp only [utf8PercentEncode, encodeWith, List.flatMap_cons] at ih2 ⊢
    rw [ih2]
    simp [hx]

theorem utf8PercentEncode_append (inSet : Nat → Bool) (xs ys : List Char) :
    utf8PercentEncode inSet (xs ++ ys)
      = utf8PercentEncode inSet xs ++ utf8PercentEncode inSet ys := by
  simp [utf8PercentEncode, encodeWith]

theorem percentCodePoint_query (n : Nat) (h : n < 0x110000) :
    ∀ x ∈ percentCodePoint n, inSpecialQuerySet x.toNat = false := by
  intro x hx
  unfold percentCodePoint at hx
  rw [List.mem_flatMap] at hx
  obtain ⟨b, hb, hx⟩ := hx
  have hb256 := utf8Octets_lt n h b hb
  simp only [percentOctet, List.mem_cons, List.mem_singleton, List.not_mem_nil, or_false] at hx
  simp only [inSpecialQuerySet, inQuerySet, inC0ControlSet, Bool.or_eq_false_iff,
    beq_eq_false_iff_ne, decide_eq_false_iff_not]
  rcases hx with rfl | rfl | rfl
  · decide
  · have := hexDigit_toNat (b / 16) (by omega)
    omega
  · have := hexDigit_toNat (b % 16) (by omega)
    omega

/-- The query state re-encodes an encoded text: the apostrophes the encoder left
become `%27`. -/
theorem utf8PercentEncode_encoded (cs : List Char) :
    utf8PercentEncode inSpecialQuerySet (encodeWith isUnescaped cs)
      = encodeWith isUnescapedQuery cs := by
  induction cs with
  | nil => rfl
  | cons c cs ih =>
    have e1 : encodeWith isUnescaped (c :: cs)
        = (if isUnescaped c.toNat then [c] else percentCodePoint c.toNat)
          ++ encodeWith isUnescaped cs := by
      simp [encodeWith]
    have e2 : encodeWith isUnescapedQuery (c :: cs)
        = (if isUnescapedQuery c.toNat then [c] else percentCodePoint c.toNat)
          ++ encodeWith isUnescapedQuery cs := by
      simp [encodeWith]
    rw [e1, e2, utf8PercentEncode_append, ih]
    congr 1
    by_cases hu : isUnescaped c.toNat = true
    · by_cases h39 : c.toNat = 39
      · have hq : isUnescapedQuery c.toNat = false := by simp [isUnescapedQuery, h39]
        have hs : inSpecialQuerySet c.toNat = true := by rw [h39]; rfl
        simp [hu, hq, utf8PercentEncode, encodeWith, hs]
      · have hq : isUnescapedQuery c.toNat = true := by simp [isUnescapedQuery, hu, h39]
        have hs : inSpecialQuerySet c.toNat = false := by
          have := (isPlain_facts c (isPlain_of_unescaped c hu)).2.2.2.2
          cases hv : inSpecialQuerySet c.toNat
          · rfl
          · exact absurd (this.1 hv) h39
        simp [hu, hq, utf8PercentEncode, encodeWith, hs]
    · have hq : isUnescapedQuery c.toNat = false := by simp [isUnescapedQuery, hu]
      simp only [hu, hq]
      exact utf8PercentEncode_eq _ _ (percentCodePoint_query _ (char_lt c))

theorem isUnescapedQuery_unescaped (n : Nat) (h : isUnescapedQuery n = true) :
    isUnescaped n = true := by
  simp only [isUnescapedQuery, Bool.and_eq_true] at h
  exact h.1

/-- An encoded text is a dot segment only when the text is. -/
theorem encoded_dots (s : String) :
    (isDoubleDot (encodeWith isUnescaped s.data) = true → s = "..") ∧
    (isSingleDot (encodeWith isUnescaped s.data) = true → s = ".") := by
  have hd := decode_encodeWith isUnescaped (by decide) s
  constructor
  · intro h
    simp only [isDoubleDot, List.contains_eq_any_beq, List.any_cons, List.any_nil,
      Bool.or_false, Bool.or_eq_true, beq_iff_eq] at h
    rcases h with h | h | h | h | h | h | h | h | h <;>
      · rw [h] at hd
        exact Option.some.inj (hd.symm.trans (by decide!))
  · intro h
    simp only [isSingleDot, List.contains_eq_any_beq, List.any_cons, List.any_nil,
      Bool.or_false, Bool.or_eq_true, beq_iff_eq] at h
    rcases h with h | h | h <;>
      · rw [h] at hd
        exact Option.some.inj (hd.symm.trans (by decide!))

theorem isPlain_ne (x : Char) (h : isPlain x = true) :
    x.toNat ≠ 47 ∧ x.toNat ≠ 63 ∧ x.toNat ≠ 35 ∧ x.toNat ≠ 38 ∧ x.toNat ≠ 61 :=
  isDelimiter_false x (isPlain_facts x h).1

/-- The address a target of the shape `/root/A/verb?key=E` resolves to, its parts made
of plain characters. -/
theorem resolve_target (target : String) (root verb key A E : List Char)
    (htarget : target.data
      = ('/' :: root ++ '/' :: A ++ '/' :: verb) ++ '?' :: (key ++ '=' :: E))
    (hroot : ∀ x ∈ root, isPlain x = true) (hverb : ∀ x ∈ verb, isPlain x = true)
    (hkey : ∀ x ∈ key, isPlain x = true ∧ x.toNat ≠ 39)
    (hA : ∀ x ∈ A, isPlain x = true) (hE : ∀ x ∈ E, isPlain x = true)
    (hr1 : isDoubleDot root = false) (hr2 : isSingleDot root = false)
    (hv1 : isDoubleDot verb = false) (hv2 : isSingleDot verb = false) :
    resolve target
      = { path :=
            if isDoubleDot A then [String.mk verb]
            else if isSingleDot A then [String.mk root, String.mk verb]
            else [String.mk root, String.mk A, String.mk verb],
          query := some (String.mk (key ++ '=' :: utf8PercentEncode inSpecialQuerySet E)),
          fragment := none } := by
  have hP : ∀ x ∈ '/' :: root ++ '/' :: A ++ '/' :: verb,
      0x20 < x.toNat ∧ x.toNat ≠ 63 ∧ x.toNat ≠ 35 := by
    intro x hx
    simp only [List.mem_cons, List.mem_append] at hx
    rcases hx with ((rfl | hx) | rfl | hx) | rfl | hx
    · decide
    · exact ⟨(isPlain_facts x (hroot x hx)).2.1, (isPlain_ne x (hroot x hx)).2.1,
        (isPlain_ne x (hroot x hx)).2.2.1⟩
    · decide
    · exact ⟨(isPlain_facts x (hA x hx)).2.1, (isPlain_ne x (hA x hx)).2.1,
        (isPlain_ne x (hA x hx)).2.2.1⟩
    · decide
    · exact ⟨(isPlain_facts x (hverb x hx)).2.1, (isPlain_ne x (hverb x hx)).2.1,
        (isPlain_ne x (hverb x hx)).2.2.1⟩
  have hQ : ∀ x ∈ key ++ '=' :: E, 0x20 < x.toNat ∧ x.toNat ≠ 35 := by
    intro x hx
    simp only [List.mem_cons, List.mem_append] at hx
    rcases hx with hx | rfl | hx
    · exact ⟨(isPlain_facts x (hkey x hx).1).2.1, (isPlain_ne x (hkey x hx).1).2.2.1⟩
    · decide
    · exact ⟨(isPlain_facts x (hE x hx)).2.1, (isPlain_ne x (hE x hx)).2.2.1⟩
  have hall : ∀ x ∈ target.data, 0x20 < x.toNat ∧ x.toNat ≠ 35 := by
    rw [htarget]
    intro x hx
    rw [List.mem_append, List.mem_cons] at hx
    rcases hx with hx | rfl | hx
    · exact ⟨(hP x hx).1, (hP x hx).2.2⟩
    · decide
    · exact hQ x hx
  have hclean : cleanInput target.data = target.data :=
    cleanInput_eq _ (fun x hx => (hall x hx).1)
  have hfrag : splitFirst 35 target.data = (target.data, none) :=
    splitFirst_none _ _ (fun x hx => (hall x hx).2)
  have hquery : splitFirst 63 target.data
      = ('/' :: root ++ '/' :: A ++ '/' :: verb, some (key ++ '=' :: E)) := by
    rw [htarget]
    exact splitFirst_append 63 _ '?' _ (fun x hx => (hP x hx).2.1) rfl
  have hslash : afterSlash ('/' :: root ++ '/' :: A ++ '/' :: verb)
      = root ++ '/' :: (A ++ '/' :: verb) := by
    simp [afterSlash]
  have hsep : ∀ x : Char, isPlain x = true →
      (x.toNat == 47 || x.toNat == 92) = false := by
    intro x hx
    have h1 := (isPlain_ne x hx).1
    have h2 := (isPlain_facts x hx).2.2.1
    simp [h1, h2]
  have hseg : splitWhere (fun c => c.toNat == 47 || c.toNat == 92)
        (root ++ '/' :: (A ++ '/' :: verb)) = [root, A, verb] := by
    rw [splitWhere_append _ _ _ _ (fun x hx => hsep x (hroot x hx)) (by decide),
      splitWhere_append _ _ _ _ (fun x hx => hsep x (hA x hx)) (by decide),
      splitWhere_none _ _ (fun x hx => hsep x (hverb x hx))]
  have eroot : utf8PercentEncode inPathSet root = root :=
    utf8PercentEncode_eq _ _ (fun x hx => (isPlain_facts x (hroot x hx)).2.2.2.1)
  have eA : utf8PercentEncode inPathSet A = A :=
    utf8PercentEncode_eq _ _ (fun x hx => (isPlain_facts x (hA x hx)).2.2.2.1)
  have everb : utf8PercentEncode inPathSet verb = verb :=
    utf8PercentEncode_eq _ _ (fun x hx => (isPlain_facts x (hverb x hx)).2.2.2.1)
  have ekey : utf8PercentEncode inSpecialQuerySet key = key := by
    apply utf8PercentEncode_eq
    intro x hx
    have h := (isPlain_facts x (hkey x hx).1).2.2.2.2
    cases hv : inSpecialQuerySet x.toNat
    · rfl
    · exact absurd (h.1 hv) (hkey x hx).2
  have eq1 : utf8PercentEncode inSpecialQuerySet (key ++ '=' :: E)
      = key ++ '=' :: utf8PercentEncode inSpecialQuerySet E := by
    have e : key ++ '=' :: E = key ++ (['='] ++ E) := by simp
    rw [e, utf8PercentEncode_append, utf8PercentEncode_append, ekey]
    have e3 : utf8PercentEncode inSpecialQuerySet ['='] = ['='] :=
      utf8PercentEncode_eq _ _ (by decide)
    rw [e3]
    simp
  have hpath : pathState [] [root, A, verb]
      = if isDoubleDot A then [String.mk verb]
        else if isSingleDot A then [String.mk root, String.mk verb]
        else [String.mk root, String.mk A, String.mk verb] := by
    by_cases hd : isDoubleDot A = true
    · simp [pathState, eroot, eA, everb, hr1, hr2, hv1, hv2, hd]
    · by_cases hs : isSingleDot A = true
      · simp [pathState, eroot, eA, everb, hr1, hr2, hv1, hv2, hd, hs]
      · simp [pathState, eroot, eA, everb, hr1, hr2, hv1, hv2, hd, hs]
  unfold resolve
  rw [hclean, hfrag]
  simp only [hquery, hslash, hseg, hpath, eq1, Option.map_some', Option.map_none']

/-- The query parameters of an address whose query is `key=value`, both free of
delimiters. -/
theorem queryParams_one (u : Url) (key value : List Char)
    (hq : u.query = some (String.mk (key ++ '=' :: value)))
    (hkey : ∀ x ∈ key, isPlain x = true) (hvalue : ∀ x ∈ value, isPlain x = true) :
    u.queryParams = [(String.mk key, String.mk value)] := by
  have hparam : splitWhere (fun c => c.toNat == 38) (key ++ '=' :: value)
      = [key ++ '=' :: value] := by
    apply splitWhere_none
    intro x hx
    simp only [List.mem_cons, List.mem_append] at hx
    rcases hx with hx | rfl | hx
    · simpa using (isPlain_ne x (hkey x hx)).2.2.2.1
    · decide
    · simpa using (isPlain_ne x (hvalue x hx)).2.2.2.1
  have hkv : splitFirst 61 (key ++ '=' :: value) = (key, some value) :=
    splitFirst_append 61 _ '=' _ (fun x hx => (isPlain_ne x (hkey x hx)).2.2.2.2) rfl
  simp only [Url.queryParams, hq, hparam, hkv, List.map_cons, List.map_nil,
    Option.getD_some]

theorem encodeText_dots (activity : String) :
    (isDoubleDot (encodeText activity).data = true ↔ activity = "..") ∧
    (isSingleDot (encodeText activity).data = true ↔ activity = ".") := by
  constructor
  · constructor
    · exact (encoded_dots activity).1
    · intro h; subst h; decide!
  · constructor
    · exact (encoded_dots activity).2
    · intro h; subst h; decide!

/-- The address of the request for a name and an email that are texts: the verb is
`signup` or `unregister`. -/
theorem resolve_request (verb : String) (hverb : verb = "signup" ∨ verb = "unregister")
    (activity email : String) :
    resolve ("/activities/" ++ encodeText activity ++ "/" ++ verb ++ "?email="
        ++ encodeText email)
      = { path := resolvedPath activity verb,
          query := some ("email=" ++ resolvedEmail email),
          fragment := none } := by
  have hdata : ("/activities/" ++ encodeText activity ++ "/" ++ verb ++ "?email="
        ++ encodeText email).data
      = ('/' :: "activities".data ++ '/' :: (encodeText activity).data ++ '/' :: verb.data)
        ++ '?' :: ("email".data ++ '=' :: (encodeText email).data) := by
    simp [String.data_append]
  have hplain : ∀ s : String, ∀ x ∈ (encodeText s).data, isPlain x = true :=
    fun s => encodeWith_plain isUnescaped (fun _ h => h) s.data
  have hv : (∀ x ∈ verb.data, isPlain x = true) ∧ isDoubleDot verb.data = false ∧
      isSingleDot verb.data = false := by
    rcases hverb with rfl | rfl <;> decide
  have h := resolve_target _ "activities".data verb.data "email".data
    (encodeText activity).data (encodeText email).data hdata (by decide) hv.1 (by decide)
    (hplain activity) (hplain email) (by decide) (by decide) hv.2.1 hv.2.2
  rw [h]
  have hq : String.mk ("email".data ++ '=' ::
        utf8PercentEncode inSpecialQuerySet (encodeText email).data)
      = "email=" ++ resolvedEmail email := by
    simp only [encodeText, utf8PercentEncode_encoded, resolvedEmail]
    rfl
  rw [hq]
  have hp : (if isDoubleDot (encodeText activity).data = true then [String.mk verb.data]
        else if isSingleDot (encodeText activity).data = true then
          [String.mk "activities".data, String.mk verb.data]
        else [String.mk "activities".data, String.mk (encodeText activity).data,
          String.mk verb.data])
      = resolvedPath activity verb := by
    unfold resolvedPath
    by_cases h1 : activity = ".."
    · rw [if_pos ((encodeText_dots activity).1.2 h1), if_pos h1]
    · have h1e : ¬ isDoubleDot (encodeText activity).data = true :=
        fun h => h1 ((encodeText_dots activity).1.1 h)
      rw [if_neg h1e, if_neg h1]
      by_cases h2 : activity = "."
      · rw [if_pos ((encodeText_dots activity).2.2 h2), if_pos h2]
      · have h2e : ¬ isSingleDot (encodeText activity).data = true :=
          fun h => h2 ((encodeText_dots activity).2.1 h)
        rw [if_neg h2e, if_neg h2]
  rw [hp]

theorem resolve_signupTarget (activity email : String) :
    resolve (signupTarget activity email)
      = { path := resolvedPath activity "signup",
          query := some ("email=" ++ resolvedEmail email),
          fragment := none } := by
  have h := resolve_request "signup" (Or.inl rfl) activity email
  have e : signupTarget activity email
      = "/activities/" ++ encodeText activity ++ "/" ++ "signup" ++ "?email="
        ++ encodeText email := by
    simp only [signupTarget, String.append_assoc]
    rfl
  rw [e, h]

theorem resolve_unregisterTarget (activity email : String) :
    resolve (unregisterTarget activity email)
      = { path := resolvedPath activity "unregister",
          query := some ("email=" ++ resolvedEmail email),
          fragment := none } := by
  have h := resolve_request "unregister" (Or.inr rfl) activity email
  have e : unregisterTarget activity email
      = "/activities/" ++ encodeText activity ++ "/" ++ "unregister" ++ "?email="
        ++ encodeText email := by
    simp only [unregisterTarget, String.append_assoc]
    rfl
  rw [e, h]

theorem resolvedEmail_plain (email : String) :
    ∀ x ∈ (resolvedEmail email).data, isPlain x = true :=
  encodeWith_plain isUnescapedQuery isUnescapedQuery_unescaped email.data

theorem decode_resolvedEmail (email : String) :
    decodeURIComponent (resolvedEmail email) = some email :=
  decode_encodeWith isUnescapedQuery (by decide) email

theorem queryParams_email (u : Url) (email : String)
    (hq : u.query = some ("email=" ++ resolvedEmail email)) :
    u.queryParams = [("email", resolvedEmail email)] := by
  have h := queryParams_one u "email".data (resolvedEmail email).data
    (by rw [hq]; rfl) (by decide) (resolvedEmail_plain email)
  rw [h]

theorem resolvedPath_injective (verb : String) (a b : String)
    (h : resolvedPath a verb = resolvedPath b verb) : a = b := by
  unfold resolvedPath at h
  by_cases ha1 : a = ".."
  · by_cases hb1 : b = ".."
    · rw [ha1, hb1]
    · exfalso
      by_cases hb2 : b = "." <;> simp [ha1, hb1, hb2] at h
  · by_cases hb1 : b = ".."
    · exfalso
      by_cases ha2 : a = "." <;> simp [ha1, hb1, ha2] at h
    · by_cases ha2 : a = "."
      · by_cases hb2 : b = "."
        · rw [ha2, hb2]
        · exfalso
          simp [ha1, hb1, ha2, hb2] at h
      · by_cases hb2 : b = "."
        · exfalso
          simp [ha1, hb1, ha2, hb2] at h
        · simp only [ha1, hb1, ha2, hb2, if_false, List.cons.injEq, and_true,
            true_and] at h
          exact encodeText_injective _ _ h

theorem resolvedEmail_injective (a b : String) (h : resolvedEmail a = resolvedEmail b) :
    a = b := by
  have ha := decode_resolvedEmail a
  rw [h, decode_resolvedEmail b] at ha
  exact (Option.some.inj ha).symm

/-! ## C10: the request targets -/

/-- C10, as stated, fails: for the activity name `..` the signup target is
`/activities/../signup?email=a%40x.com`, `encodeURIComponent` leaving the dots as they
are, and the POST goes to the address `/signup?email=a%40x.com`: one path segment, none
of them the name. -/
theorem request_dotdot :
    signupUrl (utf16 "..") (utf16 "a@x.com") = some "/activities/../signup?email=a%40x.com" ∧
    (setupSignupForm_submit (.response true (.value ⟨some "ok", none⟩))
        (.response true (.value [])) { filled with activity := utf16 ".." }).page.requests
      = [⟨.POST, { path := ["signup"], query := some "email=a%40x.com", fragment := none }⟩,
         ⟨.GET, { path := ["activities"], query := none, fragment := none }⟩] := by
  decide!

/-- C10, amended: for every activity name and email that are texts (well-formed
strings), unregister issues its DELETE with the target `/activities/` + enc(name) +
`/unregister?email=` + enc(email) and signup (both fields non-empty) its POST with the
target `/activities/` + enc(name) + `/signup?email=` + enc(email), where enc is
`encodeURIComponent`. The encoded parts hold none of `/ ? # & =`. The address the
request goes to has no fragment and the one query parameter `email`, whose value
percent-decodes to the email; its path has exactly the three segments `activities`,
enc(name) and the verb, the second decoding to the name, when the name is neither `.`
nor `..`; for the name `.` the path is `activities`, verb and for `..` it is the verb
alone. Distinct pairs of name and email give distinct addresses. -/
theorem request_targets (activity email : String) :
    (∀ (del : FetchOutcome Reply) (get : FetchOutcome ActivityCollection) (p : Page),
      ∃ later, (handleUnregister true del get (utf16 activity) (utf16 email) p).page.requests
        = p.requests ++ ⟨.DELETE, resolve ("/activities/" ++ encodeText activity
            ++ "/unregister?email=" ++ encodeText email)⟩ :: later) ∧
    (∀ (post : FetchOutcome Reply) (get : FetchOutcome ActivityCollection) (p : Page),
      p.activity = utf16 activity → p.email = utf16 email → activity ≠ "" → email ≠ "" →
      ∃ later, (setupSignupForm_submit post get p).page.requests
        = p.requests ++ ⟨.POST, resolve ("/activities/" ++ encodeText activity
            ++ "/signup?email=" ++ encodeText email)⟩ :: later) ∧
    (encodeURIComponent (utf16 activity) = some (encodeText activity) ∧
      encodeURIComponent (utf16 email) = some (encodeText email)) ∧
    (∀ x ∈ (encodeText activity).data ++ (encodeText email).data,
      x ≠ '/' ∧ x ≠ '?' ∧ x ≠ '#' ∧ x ≠ '&' ∧ x ≠ '=') ∧
    (∀ verb, verb = "signup" ∨ verb = "unregister" →
      (resolve ("/activities/" ++ encodeText activity ++ "/" ++ verb ++ "?email="
          ++ encodeText email)).fragment = none ∧
      (∃ value,
        (resolve ("/activities/" ++ encodeText activity ++ "/" ++ verb ++ "?email="
          ++ encodeText email)).queryParams = [("email", value)] ∧
        decodeURIComponent value = some email) ∧
      (activity ≠ "." → activity ≠ ".." →
        (resolve ("/activities/" ++ encodeText activity ++ "/" ++ verb ++ "?email="
          ++ encodeText email)).path = ["activities", encodeText activity, verb]) ∧
      (activity = "." →
        (resolve ("/activities/" ++ encodeText activity ++ "/" ++ verb ++ "?email="
          ++ encodeText email)).path = ["activities", verb]) ∧
      (activity = ".." →
        (resolve ("/activities/" ++ encodeText activity ++ "/" ++ verb ++ "?email="
          ++ encodeText email)).path = [verb])) ∧
    decodeURIComponent (encodeText activity) = some activity ∧
    (∀ a2 e2 : String,
      resolve (signupTarget activity email) = resolve (signupTarget a2 e2) →
      activity = a2 ∧ email = e2) ∧
    (∀ a2 e2 : String,
      resolve (unregisterTarget activity email) = resolve (unregisterTarget a2 e2) →
      activity = a2 ∧ email = e2) := by
  refine ⟨?_, ?_, ⟨encodeURIComponent_utf16 _, encodeURIComponent_utf16 _⟩, ?_, ?_,
    decode_encodeText activity, ?_, ?_⟩
  · intro del get p
    have ht := unregisterUrl_utf16 activity email
    rcases del with _ | ⟨_ | _, _ | _ | r⟩ <;>
      simp [handleUnregister, handleUnregisterTry, ht, showMessage, fetch,
        loadActivities_requests]
  · intro post get p ha he hane hene
    have hcond : ¬ (p.email = [] ∨ p.activity = []) := by
      rw [ha, he, utf16_eq_nil, utf16_eq_nil]
      simp [hane, hene]
    have ht : signupUrl p.activity p.email
        = some ("/activities/" ++ encodeText activity ++ "/signup?email="
            ++ encodeText email) := by
      rw [ha, he]; exact signupUrl_utf16 activity email
    rcases post with _ | ⟨_ | _, _ | _ | r⟩ <;>
      simp [setupSignupForm_submit, hcond, submitTry, ht, showMessage, fetch, formReset,
        loadActivities_requests]
  · intro x hx
    have hplain : isPlain x = true := by
      rw [List.mem_append] at hx
      rcases hx with hx | hx
      · exact encodeWith_plain isUnescaped (fun _ h => h) _ x hx
      · exact encodeWith_plain isUnescaped (fun _ h => h) _ x hx
    have h := isPlain_ne x hplain
    refine ⟨?_, ?_, ?_, ?_, ?_⟩ <;> intro hx2 <;> subst hx2 <;> revert h <;> decide
  · intro verb hverb
    rw [resolve_request verb hverb activity email]
    refine ⟨rfl, ⟨resolvedEmail email, queryParams_email _ email rfl,
      decode_resolvedEmail email⟩, ?_, ?_, ?_⟩
    · intro h1 h2
      simp [resolvedPath, h1, h2]
    · intro h1
      subst h1
      simp [resolvedPath]
    · intro h2
      simp [resolvedPath, h2]
  · intro a2 e2 h
    rw [resolve_signupTarget, resolve_signupTarget] at h
    simp only [Url.mk.injEq, Option.some.injEq, and_true] at h
    refine ⟨resolvedPath_injective _ _ _ h.1, resolvedEmail_injective _ _ ?_⟩
    have h2 := congrArg String.data h.2
    simp only [String.data_append, List.append_cancel_left_eq] at h2
    exact String.ext h2
  · intro a2 e2 h
    rw [resolve_unregisterTarget, resolve_unregisterTarget] at h
    simp only [Url.mk.injEq, Option.some.injEq, and_true] at h
    refine ⟨resolvedPath_injective _ _ _ h.1, resolvedEmail_injective _ _ ?_⟩
    have h2 := congrArg String.data h.2
    simp only [String.data_append, List.append_cancel_left_eq] at h2
    exact String.ext h2

/-- C10, amended, at the activity `Chess Club` and the email `a@x.com`. -/
theorem request_targets_witness :
    (∃ later, (setupSignupForm_submit (.response true (.value ⟨some "ok", none⟩))
        (.response true (.value [])) filled).page.requests
      = filled.requests ++ ⟨.POST, resolve ("/activities/" ++ encodeText "Chess Club"
          ++ "/signup?email=" ++ encodeText "a@x.com")⟩ :: later) ∧
    (resolve ("/activities/" ++ encodeText "Chess Club" ++ "/" ++ "signup" ++ "?email="
        ++ encodeText "a@x.com")).path = ["activities", encodeText "Chess Club", "signup"] :=
  ⟨(request_targets "Chess Club" "a@x.com").2.1 (.response true (.value ⟨some "ok", none⟩))
      (.response true (.value [])) filled rfl rfl (by decide) (by decide),
    ((request_targets "Chess Club" "a@x.com").2.2.2.2.1 "signup" (Or.inl rfl)).2.2.1
      (by decide) (by decide)⟩

end ActivityClient
